import Mathlib

/-!
Verification development for the msgpack-tracing repository.

The repository is a structured-tracing pipeline: an instruction stream is
produced by a tracing front end, transformed by tape machines
(string interning, restart replay), serialized with a MessagePack-based
codec (`Store` / `Load` in src/storage.rs), and rendered by a console
printer (src/printer.rs).

This file gives a shallow embedding of the data model and of the
operations the claims refer to:

* Rust strings (`&str` / `String`) are modelled by their UTF-8 byte
  sequences, `RStr := List Nat` (each entry a byte value); `str.len()` is
  the byte length, matching Rust.
* byte streams are `List Nat` of byte values;
* `u64` / `u32` quantities are `Nat` with explicit bounds where overflow
  or casts matter; `i64` is `Int` with explicit two's-complement
  conversion at the byte boundary;
* `f64` payloads are carried as their 8-byte IEEE bit pattern (a `Nat`);
  no claim depends on floating-point arithmetic, only on the bits moving
  through the codec unchanged;
* `NonZeroU64` span ids are `Nat` together with side conditions `0 < id`
  where the code relies on them;
* `chrono::DateTime<Utc>` values are represented by the pair
  (timestamp-as-u64, subsec-nanoseconds), which is exactly the data the
  codec reads and writes;
* fallible operations return `Except` / `Option`; a Rust panic
  (`assert!`, `unwrap`, out-of-bounds index) is `none`.
-/

namespace MT

/-- A Rust string, as its list of UTF-8 byte values. -/
abbrev RStr := List Nat

/-- `tracing::Level`, ordered TRACE < DEBUG < INFO < WARN < ERROR. -/
inductive Priority where
  | trace
  | debug
  | info
  | warn
  | error
deriving DecidableEq, Repr

/-- `src/storage.rs priority_num`: the on-wire numeric level. -/
def priorityNum : Priority → Nat
  | .trace => 0
  | .debug => 1
  | .info => 2
  | .warn => 3
  | .error => 4

/-- `src/storage.rs num_priority`: decode a numeric level, clamping
unknown values to ERROR. -/
def numPriority : Nat → Priority
  | 0 => .trace
  | 1 => .debug
  | 2 => .info
  | 3 => .warn
  | 4 => .error
  | _ => .error

/-- A `chrono::DateTime<Utc>` as the codec sees it: `sec` is
`timestamp() as u64` (two's-complement cast of the `i64` timestamp) and
`nsec` is `timestamp_subsec_nanos()` (a `u32`, below 2*10^9). -/
structure Ts where
  sec : Nat
  nsec : Nat
deriving DecidableEq, Repr

/-- `CacheString<'a>` (the current tape.rs copy, used by storage.rs and
string_cache.rs): a string field carried either literally or as a cache
index. -/
inductive CacheString where
  | present (s : RStr)
  | cached (i : Nat)
deriving DecidableEq, Repr

/-- `Value<'a, S>`: a tagged attribute value, generic over the string
carrier `S` (`RStr` for the uncached view, `CacheString` for the cached
view).  `float` carries the f64 bit pattern. -/
inductive Value (S : Type) where
  | debug (s : S)
  | string (s : S)
  | float (bits : Nat)
  | integer (v : Int)
  | unsigned (v : Nat)
  | bool (b : Bool)
  | byteArray (bs : List Nat)
deriving DecidableEq, Repr

/-- The uncached `Instruction` (`InstructionSet`) handled by
`Store::do_handle`, `RestartableMachine` (src/restart.rs) and `Printer`
(src/printer.rs).  It has no `NewString` variant: `do_handle`,
restart.rs and printer.rs all match exhaustively without one.
`FieldValue { name, value }` is inlined as the two `addValue` fields. -/
inductive Instruction where
  | restart
  | newSpan (parent : Option Nat) (span : Nat) (name : RStr)
  | finishedSpan
  | newRecord (span : Nat)
  | finishedRecord
  | startEvent (time : Ts) (span : Option Nat) (target : RStr) (priority : Priority)
  | finishedEvent
  | addValue (name : RStr) (value : Value RStr)
  | deleteSpan (span : Nat)
deriving DecidableEq, Repr

/-- The cached `CacheInstruction` consumed by `Store::do_handle_cached`
and produced by `Load::fetch_one_cached` (src/storage.rs). -/
inductive CacheInstruction where
  | restart
  | newString (s : RStr)
  | newSpan (parent : Option Nat) (span : Nat) (name : CacheString)
  | finishedSpan
  | newRecord (span : Nat)
  | finishedRecord
  | startEvent (time : Ts) (span : Option Nat) (target : CacheString) (priority : Priority)
  | finishedEvent
  | addValue (name : CacheString) (value : Value CacheString)
  | deleteSpan (span : Nat)
deriving DecidableEq, Repr

/-- `InstructionId` opcode byte (`impl From<InstructionId> for u8` in
tape.rs), on the cached instruction. -/
def CacheInstruction.idByte : CacheInstruction → Nat
  | .restart => 255
  | .newString _ => 1
  | .newSpan .. => 2
  | .finishedSpan => 4
  | .newRecord _ => 8
  | .finishedRecord => 16
  | .startEvent .. => 32
  | .finishedEvent => 64
  | .addValue .. => 128
  | .deleteSpan _ => 0

/-- Opcode bytes accepted by `InstructionId::try_from` (tape.rs). -/
def isOpcode (b : Nat) : Bool :=
  b = 255 || b = 1 || b = 2 || b = 4 || b = 8 || b = 16 || b = 32 || b = 64 ||
    b = 128 || b = 0

/-! ## Big- and little-endian byte strings -/

/-- `n`-byte big-endian encoding of `v % 256^n` (most significant byte
first), as `to_be_bytes` produces for the in-range value. -/
def be (n v : Nat) : List Nat :=
  match n with
  | 0 => []
  | n + 1 => be n (v / 256) ++ [v % 256]

/-- Big-endian recombination (`from_be_bytes`). -/
def fromBE (l : List Nat) : Nat :=
  l.foldl (fun a b => a * 256 + b) 0

/-- `n`-byte little-endian encoding of `v % 256^n` (`to_le_bytes`). -/
def le (n v : Nat) : List Nat :=
  match n with
  | 0 => []
  | n + 1 => v % 256 :: le n (v / 256)

/-- Little-endian recombination (`from_le_bytes`). -/
def fromLE (l : List Nat) : Nat :=
  match l with
  | [] => 0
  | b :: r => b + 256 * fromLE r

theorem be_length (n v : Nat) : (be n v).length = n := by
  induction n generalizing v with
  | zero => rfl
  | succ n ih => simp [be, ih]

theorem le_length (n v : Nat) : (le n v).length = n := by
  induction n generalizing v with
  | zero => rfl
  | succ n ih => simp [le, ih]

theorem fromBE_append_one (l : List Nat) (x : Nat) :
    fromBE (l ++ [x]) = fromBE l * 256 + x := by
  simp [fromBE]

theorem fromBE_be (n v : Nat) : fromBE (be n v) = v % 256 ^ n := by
  induction n generalizing v with
  | zero => simp [be, fromBE, Nat.mod_one]
  | succ n ih =>
    rw [be, fromBE_append_one, ih]
    rw [pow_succ', Nat.mod_mul]
    ring

theorem fromBE_be_of_lt {n v : Nat} (h : v < 256 ^ n) : fromBE (be n v) = v := by
  rw [fromBE_be, Nat.mod_eq_of_lt h]

theorem fromLE_le (n v : Nat) : fromLE (le n v) = v % 256 ^ n := by
  induction n generalizing v with
  | zero => simp [le, fromLE, Nat.mod_one]
  | succ n ih =>
    rw [le, fromLE, ih]
    rw [pow_succ', Nat.mod_mul]

theorem fromLE_le_of_lt {n v : Nat} (h : v < 256 ^ n) : fromLE (le n v) = v := by
  rw [fromLE_le, Nat.mod_eq_of_lt h]

/-! ## UTF-8 validity

`Load` re-validates decoded string bytes with `std::str::from_utf8`.
`utf8Valid` is that check (RFC 3629: correct continuation bytes, no
overlong forms, no surrogates, maximum U+10FFFF).  Every byte sequence
obtained from a Rust `&str` satisfies it. -/

/-- Is `b` a UTF-8 continuation byte (`0x80..=0xBF`)? -/
def isCont (b : Nat) : Bool := 0x80 ≤ b && b ≤ 0xbf

/-- The `std::str::from_utf8` validity check on a byte sequence. -/
def utf8Valid : List Nat → Bool
  | [] => true
  | b :: r =>
    if b < 0x80 then utf8Valid r
    else if 0xc2 ≤ b && b ≤ 0xdf then
      match r with
      | c1 :: r2 => isCont c1 && utf8Valid r2
      | [] => false
    else if 0xe0 ≤ b && b ≤ 0xef then
      match r with
      | c1 :: c2 :: r2 =>
        (if b = 0xe0 then 0xa0 ≤ c1 && c1 ≤ 0xbf
         else if b = 0xed then 0x80 ≤ c1 && c1 ≤ 0x9f
         else isCont c1) && isCont c2 && utf8Valid r2
      | _ => false
    else if 0xf0 ≤ b && b ≤ 0xf4 then
      match r with
      | c1 :: c2 :: c3 :: r2 =>
        (if b = 0xf0 then 0x90 ≤ c1 && c1 ≤ 0xbf
         else if b = 0xf4 then 0x80 ≤ c1 && c1 ≤ 0x8f
         else isCont c1) && isCont c2 && isCont c3 && utf8Valid r2
      | _ => false
    else false

/-! ## MessagePack primitive encoders (rmp `encode::write_*`) -/

/-- `rmp::encode::write_uint`: most compact unsigned encoding. -/
def writeUint (v : Nat) : List Nat :=
  if v < 128 then [v]
  else if v < 256 then [0xcc, v]
  else if v < 65536 then 0xcd :: be 2 v
  else if v < 4294967296 then 0xce :: be 4 v
  else 0xcf :: be 8 v

/-- `rmp::encode::write_sint`: most compact signed encoding; nonnegative
values from 128 up use the unsigned marker family, exactly as
`write_uint` does.  Negative payloads are two's complement. -/
def writeSint (v : Int) : List Nat :=
  if -32 ≤ v ∧ v < 0 then [(v + 256).toNat]
  else if -128 ≤ v ∧ v < -32 then [0xd0, (v + 256).toNat]
  else if -32768 ≤ v ∧ v < -128 then 0xd1 :: be 2 (v + 65536).toNat
  else if -2147483648 ≤ v ∧ v < -32768 then 0xd2 :: be 4 (v + 4294967296).toNat
  else if v < -2147483648 then 0xd3 :: be 8 (v + 18446744073709551616).toNat
  else writeUint v.toNat

/-- `rmp::encode::write_str`: length marker followed by the raw bytes. -/
def writeStr (s : RStr) : List Nat :=
  (if s.length < 32 then [0xa0 + s.length]
   else if s.length < 256 then [0xd9, s.length]
   else if s.length < 65536 then 0xda :: be 2 s.length
   else 0xdb :: be 4 s.length) ++ s

/-- `rmp::encode::write_bin`: bin length marker followed by raw bytes. -/
def writeBin (bs : List Nat) : List Nat :=
  (if bs.length < 256 then [0xc4, bs.length]
   else if bs.length < 65536 then 0xc5 :: be 2 bs.length
   else 0xc6 :: be 4 bs.length) ++ bs

/-! ## CacheIndex (src/storage.rs)

A cache index reference on the wire: one of the fixext1/2/4/8 markers
followed by 2/3/5/9 bytes whose little-endian value is the index (for
the 9-byte form the first byte is forced to 0 and ignored on read). -/

/-- `CacheIndex`: the four fixext payload shapes, each carrying its raw
data bytes exactly as the Rust enum does. -/
inductive CacheIndex where
  | u16 (data : List Nat)
  | u24 (data : List Nat)
  | u40 (data : List Nat)
  | u64 (data : List Nat)
deriving DecidableEq, Repr

/-- `impl From<u64> for CacheIndex`: pick the shape by which
little-endian bytes of the value are zero. -/
def CacheIndex.ofU64 (v : Nat) : CacheIndex :=
  if v < 2 ^ 16 then .u16 (le 2 v)
  else if v < 2 ^ 24 then .u24 (le 3 v)
  else if v < 2 ^ 40 then .u40 (le 5 v)
  else .u64 (0 :: le 8 v)

/-- `impl From<CacheIndex> for u64`: little-endian recombination; the
`u64` shape ignores its first data byte. -/
def CacheIndex.toU64 : CacheIndex → Nat
  | .u16 d => fromLE d
  | .u24 d => fromLE d
  | .u40 d => fromLE d
  | .u64 d => fromLE d.tail

/-- `CacheIndex::marker`: the MessagePack fixext marker byte. -/
def CacheIndex.markerByte : CacheIndex → Nat
  | .u16 _ => 0xd4
  | .u24 _ => 0xd5
  | .u40 _ => 0xd6
  | .u64 _ => 0xd7

/-- `CacheIndex::data`. -/
def CacheIndex.data : CacheIndex → List Nat
  | .u16 d => d
  | .u24 d => d
  | .u40 d => d
  | .u64 d => d

/-- `CacheIndex::write`: marker byte then the data bytes. -/
def CacheIndex.write (c : CacheIndex) : List Nat :=
  c.markerByte :: c.data

/-! ## Store: the encoder (src/storage.rs) -/

/-- `Store::write_cache_str`. -/
def writeCacheStr : CacheString → List Nat
  | .present s => writeStr s
  | .cached i => (CacheIndex.ofU64 i).write

/-- `Store::write_cache_value`: `Debug` is a 1-element MessagePack array
(`0x91`) followed by a cache string; `Float` is the f64 marker `0xcb`
plus the 8 big-endian bit-pattern bytes; `Bool` is `0xc2`/`0xc3`. -/
def writeCacheValue : Value CacheString → List Nat
  | .debug s => 0x91 :: writeCacheStr s
  | .string s => writeCacheStr s
  | .float bits => 0xcb :: be 8 bits
  | .integer v => writeSint v
  | .unsigned v => writeUint v
  | .bool b => [if b then 0xc3 else 0xc2]
  | .byteArray bs => writeBin bs

/-- `Store::do_handle_cached`: opcode byte, then the payload fields in
declared order. -/
def storeDoHandleCached (i : CacheInstruction) : List Nat :=
  i.idByte ::
    match i with
    | .restart => []
    | .newString s => writeStr s
    | .newSpan parent span name =>
      writeUint (parent.getD 0) ++ writeUint span ++ writeCacheStr name
    | .finishedSpan => []
    | .newRecord span => writeUint span
    | .finishedRecord => []
    | .startEvent time span target priority =>
      writeUint time.sec ++ writeUint time.nsec ++ writeUint (span.getD 0) ++
        writeCacheStr target ++ writeUint (priorityNum priority)
    | .finishedEvent => []
    | .addValue name value => writeCacheStr name ++ writeCacheValue value
    | .deleteSpan span => writeUint span

/-- The value conversion inside `Store::do_handle`'s `AddValue` arm:
strings become literal `CacheString::Present`, and a `Debug` value is
rewritten to `Value::String` (the debug tag is dropped here). -/
def storeConvValue : Value RStr → Value CacheString
  | .debug s => .string (.present s)
  | .string s => .string (.present s)
  | .float bits => .float bits
  | .integer v => .integer v
  | .unsigned v => .unsigned v
  | .bool b => .bool b
  | .byteArray bs => .byteArray bs

/-- The instruction conversion inside `Store::do_handle`: every string
becomes a literal `CacheString::Present`; values go through
`storeConvValue`. -/
def storeConv (i : Instruction) : CacheInstruction :=
  match i with
  | .restart => .restart
  | .newSpan parent span name => .newSpan parent span (.present name)
  | .finishedSpan => .finishedSpan
  | .newRecord span => .newRecord span
  | .finishedRecord => .finishedRecord
  | .startEvent time span target priority =>
    .startEvent time span (.present target) priority
  | .finishedEvent => .finishedEvent
  | .addValue name value => .addValue (.present name) (storeConvValue value)
  | .deleteSpan span => .deleteSpan span

/-- `Store::do_handle`: convert to the cached shape, then encode. -/
def storeDoHandle (i : Instruction) : List Nat :=
  storeDoHandleCached (storeConv i)

/-- Encoding of a whole instruction sequence (one `do_handle` call per
instruction, bytes concatenated, as `Store`'s `TapeMachine` impl does). -/
def storeAll (S : List Instruction) : List Nat :=
  (S.map storeDoHandle).flatten

/-! ## chrono timestamp reconstruction

`Load` rebuilds the `StartEvent` time with
`DateTime::from_timestamp(time as i64, time2 as u32).unwrap_or_default()`.
`chrono` (an external crate, not part of src/) accepts a timestamp iff
the nanosecond part is below 2*10^9 and the seconds fall inside its
representable year range ±262143 (year fits the 19 signed bits of its
packed date); otherwise `unwrap_or_default` yields the epoch. -/

/-- Days from the civil epoch 1970-01-01 to year/month/day (proleptic
Gregorian; Hinnant's algorithm). -/
def daysFromCivil (y : Int) (m d : Nat) : Int :=
  let y2 : Int := if m ≤ 2 then y - 1 else y
  let era : Int := Int.fdiv y2 400
  let yoe : Nat := (y2 - era * 400).toNat
  let mp : Nat := if 3 ≤ m then m - 3 else m + 9
  let doy : Nat := (153 * mp + 2) / 5 + d - 1
  let doe : Nat := yoe * 365 + yoe / 4 - yoe / 100 + doy
  era * 146097 + doe - 719468

/-- Largest timestamp chrono represents (262143-12-31T23:59:59). -/
def chronoMaxSec : Int := 86400 * daysFromCivil 262143 12 31 + 86399

/-- Smallest timestamp chrono represents (-262144-01-01T00:00:00). -/
def chronoMinSec : Int := 86400 * daysFromCivil (-262144) 1 1

/-- Modelled from the spec: the missing-from-src behavior of the external
call `DateTime::from_timestamp(sec as i64, nsec as u32).unwrap_or_default()`
in `Load::fetch_one_cached`; out-of-range input yields the epoch. -/
def fromTimestampD (sec nsec : Nat) : Ts :=
  let s : Int := if sec < 2 ^ 63 then (sec : Int) else (sec : Int) - 2 ^ 64
  let n : Nat := nsec % 2 ^ 32
  if chronoMinSec ≤ s ∧ s ≤ chronoMaxSec ∧ n < 2000000000 then ⟨sec, n⟩
  else ⟨0, 0⟩

/-- Bit-level model of the Rust `f32 as f64` cast (IEEE fpext) used by
the `Marker::F32` decode path: sign preserved, exponent re-biased,
mantissa left-shifted 29 bits; subnormals normalize; NaN payloads shift.
No claim depends on floating-point arithmetic, only on bits. -/
def f32ToF64Bits (b : Nat) : Nat :=
  let s := b / 2 ^ 31 % 2
  let e := b / 2 ^ 23 % 256
  let m := b % 2 ^ 23
  if e = 0 then
    if m = 0 then s * 2 ^ 63
    else
      let k := Nat.log2 m
      let e64 := 1023 + k - 149
      let m64 := (m - 2 ^ k) * 2 ^ (52 - k)
      s * 2 ^ 63 + e64 * 2 ^ 52 + m64
  else if e = 255 then s * 2 ^ 63 + 2047 * 2 ^ 52 + m * 2 ^ 29
  else s * 2 ^ 63 + (e + 896) * 2 ^ 52 + m * 2 ^ 29

/-! ## Load: the decoder (src/storage.rs)

Readers are functions `List Nat → Except DErr α × List Nat`, returning
the result and the not-yet-consumed suffix (also on error, matching the
`BufReader` position the Rust code keeps). -/

/-- Decode-error taxonomy (§7 of the design): `eofMarker` is
`EofOnMarker`, `truncated` an EOF inside `read_exact`, the rest match
the Rust error types.  `fuelOut` marks recursion-fuel exhaustion in the
drivers below; the fuel supplied is always sufficient, so it never
occurs. -/
inductive DErr where
  | eofMarker
  | truncated
  | badOpcode (b : Nat)
  | typeMismatch
  | outOfRange
  | badUtf8
  | zeroSpan
  | unexpectedMarker (m : Nat)
  | unexpectedCached
  | fuelOut
deriving DecidableEq, Repr

/-- A byte-stream reader. -/
def Rd (α : Type) : Type := List Nat → Except DErr α × List Nat

instance : Monad Rd where
  pure a := fun l => (.ok a, l)
  bind x f := fun l =>
    match x l with
    | (.ok a, l2) => f a l2
    | (.error e, l2) => (.error e, l2)

/-- Fail with a decode error. -/
def rdErr (e : DErr) : Rd α := fun l => (.error e, l)

/-- Consume one byte (`fill_buf` + `consume(1)`). -/
def readByte : Rd Nat := fun l =>
  match l with
  | [] => (.error .eofMarker, [])
  | b :: r => (.ok b, r)

/-- Peek one byte without consuming (`do_peek_marker`). -/
def peekByte : Rd Nat := fun l =>
  match l with
  | [] => (.error .eofMarker, l)
  | b :: _ => (.ok b, l)

/-- Consume exactly `n` bytes (`read_exact`); on EOF the available bytes
are consumed and an error returned. -/
def readN (n : Nat) : Rd (List Nat) := fun l =>
  if n ≤ l.length then (.ok (l.take n), l.drop n) else (.error .truncated, l.drop n)

/-- `rmp::decode::read_int` into `u64`: accepts the whole integer marker
family, rejecting negative values. -/
def readUintRd : Rd Nat := do
  let m ← readByte
  if m < 128 then pure m
  else if m = 0xcc then readByte
  else if m = 0xcd then do
    let bs ← readN 2
    pure (fromBE bs)
  else if m = 0xce then do
    let bs ← readN 4
    pure (fromBE bs)
  else if m = 0xcf then do
    let bs ← readN 8
    pure (fromBE bs)
  else if m = 0xd0 then do
    let b ← readByte
    if b < 128 then pure b else rdErr .outOfRange
  else if m = 0xd1 then do
    let bs ← readN 2
    if fromBE bs < 2 ^ 15 then pure (fromBE bs) else rdErr .outOfRange
  else if m = 0xd2 then do
    let bs ← readN 4
    if fromBE bs < 2 ^ 31 then pure (fromBE bs) else rdErr .outOfRange
  else if m = 0xd3 then do
    let bs ← readN 8
    if fromBE bs < 2 ^ 63 then pure (fromBE bs) else rdErr .outOfRange
  else if 0xe0 ≤ m then rdErr .outOfRange
  else rdErr .typeMismatch

/-- `rmp::decode::read_int` into `i64`: two's-complement reassembly. -/
def readIntRd : Rd Int := do
  let m ← readByte
  if m < 128 then pure (m : Int)
  else if 0xe0 ≤ m ∧ m ≤ 255 then pure ((m : Int) - 256)
  else if m = 0xcc then do
    let b ← readByte
    pure (b : Int)
  else if m = 0xcd then do
    let bs ← readN 2
    pure (fromBE bs : Int)
  else if m = 0xce then do
    let bs ← readN 4
    pure (fromBE bs : Int)
  else if m = 0xcf then do
    let bs ← readN 8
    if fromBE bs < 2 ^ 63 then pure (fromBE bs : Int) else rdErr .outOfRange
  else if m = 0xd0 then do
    let b ← readByte
    pure (if b < 128 then (b : Int) else (b : Int) - 256)
  else if m = 0xd1 then do
    let bs ← readN 2
    pure (if fromBE bs < 2 ^ 15 then (fromBE bs : Int) else (fromBE bs : Int) - 2 ^ 16)
  else if m = 0xd2 then do
    let bs ← readN 4
    pure (if fromBE bs < 2 ^ 31 then (fromBE bs : Int) else (fromBE bs : Int) - 2 ^ 32)
  else if m = 0xd3 then do
    let bs ← readN 8
    pure (if fromBE bs < 2 ^ 63 then (fromBE bs : Int) else (fromBE bs : Int) - 2 ^ 64)
  else rdErr .typeMismatch

/-- `rmp::decode::read_str_len`. -/
def readStrLen : Rd Nat := do
  let m ← readByte
  if 0xa0 ≤ m ∧ m ≤ 0xbf then pure (m - 0xa0)
  else if m = 0xd9 then readByte
  else if m = 0xda then do
    let bs ← readN 2
    pure (fromBE bs)
  else if m = 0xdb then do
    let bs ← readN 4
    pure (fromBE bs)
  else rdErr .typeMismatch

/-- `Load::do_read_str`: length, raw bytes, UTF-8 validation. -/
def readStrRd : Rd RStr := do
  let n ← readStrLen
  let bs ← readN n
  if utf8Valid bs then pure bs else rdErr .badUtf8

/-- `rmp::decode::read_bin_len`. -/
def readBinLen : Rd Nat := do
  let m ← readByte
  if m = 0xc4 then readByte
  else if m = 0xc5 then do
    let bs ← readN 2
    pure (fromBE bs)
  else if m = 0xc6 then do
    let bs ← readN 4
    pure (fromBE bs)
  else rdErr .typeMismatch

/-- `CacheIndex::read`: marker byte then the fixed-size data. -/
def cacheIndexRead : Rd CacheIndex := do
  let m ← readByte
  if m = 0xd4 then do
    let d ← readN 2
    pure (.u16 d)
  else if m = 0xd5 then do
    let d ← readN 3
    pure (.u24 d)
  else if m = 0xd6 then do
    let d ← readN 5
    pure (.u40 d)
  else if m = 0xd7 then do
    let d ← readN 9
    pure (.u64 d)
  else rdErr (.unexpectedMarker m)

/-- Is `m` one of the MessagePack str-family markers? -/
def isStrMarker (m : Nat) : Bool :=
  (0xa0 ≤ m && m ≤ 0xbf) || m = 0xd9 || m = 0xda || m = 0xdb

/-- `Load::do_read_cache_str`: peek, then literal string or cache
index. -/
def readCacheStr : Rd CacheString := do
  let m ← peekByte
  if isStrMarker m then do
    let s ← readStrRd
    pure (.present s)
  else if 0xd4 ≤ m ∧ m ≤ 0xd7 then do
    let c ← cacheIndexRead
    pure (.cached c.toU64)
  else rdErr (.unexpectedMarker m)

/-- `Load::do_read_value`: peek the marker and dispatch.  Note the two
`Bool` arms return without consuming the marker byte, exactly as the
source does. -/
def readValue : Rd (Value CacheString) := do
  let m ← peekByte
  if m = 0x91 then do
    let _ ← readByte
    let s ← readCacheStr
    pure (.debug s)
  else if m < 0x80 ∨ 0xe0 ≤ m ∨ (0xd0 ≤ m ∧ m ≤ 0xd3) then do
    let v ← readIntRd
    pure (.integer v)
  else if isStrMarker m = true ∨ (0xd4 ≤ m ∧ m ≤ 0xd7) then do
    let s ← readCacheStr
    pure (.string s)
  else if m = 0xc2 then pure (.bool false)
  else if m = 0xc3 then pure (.bool true)
  else if m = 0xc4 ∨ m = 0xc5 ∨ m = 0xc6 then do
    let n ← readBinLen
    let bs ← readN n
    pure (.byteArray bs)
  else if m = 0xca then do
    let _ ← readByte
    let bs ← readN 4
    pure (.float (f32ToF64Bits (fromBE bs)))
  else if m = 0xcb then do
    let _ ← readByte
    let bs ← readN 8
    pure (.float (fromBE bs))
  else if 0xcc ≤ m ∧ m ≤ 0xcf then do
    let v ← readUintRd
    pure (.unsigned v)
  else rdErr (.unexpectedMarker m)

/-- The re-synchronization loop at the top of `fetch_one_cached`: when
not yet `started`, discard bytes; consuming a `Restart` opcode sets
`started` and the *following* byte is the one returned.  Returns the
byte and suffix, plus the final `started` flag. -/
def syncByte : Bool → List Nat → Option (Nat × List Nat) × Bool
  | st, [] => (none, st)
  | true, b :: r => (some (b, r), true)
  | false, b :: r => syncByte (b == 255) r

/-- Result of one fetch: end of input, an instruction, or a decode
error. -/
inductive FetchRes (α : Type) where
  | eofR
  | instrR (i : α)
  | failR (e : DErr)
deriving DecidableEq, Repr

/-- Run a payload reader, packaging the outcome. -/
def runPayload (x : Rd CacheInstruction) (r : List Nat) :
    FetchRes CacheInstruction × Bool × List Nat :=
  match x r with
  | (.ok i, r2) => (.instrR i, true, r2)
  | (.error e, r2) => (.failR e, true, r2)

/-- `Load::fetch_one_cached`: sync to the stream, read the opcode byte,
decode the payload.  Returns the result, the `started` flag, and the
remaining input. -/
def fetchOneCached (started : Bool) (l : List Nat) :
    FetchRes CacheInstruction × Bool × List Nat :=
  match syncByte started l with
  | (none, st2) => (.eofR, st2, [])
  | (some (b, r), _) =>
    if b = 255 then (.instrR .restart, true, r)
    else if b = 1 then
      runPayload (do
        let s ← readStrRd
        pure (CacheInstruction.newString s)) r
    else if b = 2 then
      runPayload (do
        let parent ← readUintRd
        let span ← readUintRd
        let name ← readCacheStr
        if span = 0 then rdErr .zeroSpan
        else pure (CacheInstruction.newSpan (if parent = 0 then none else some parent)
          span name)) r
    else if b = 4 then (.instrR .finishedSpan, true, r)
    else if b = 8 then
      runPayload (do
        let span ← readUintRd
        if span = 0 then rdErr .zeroSpan else pure (CacheInstruction.newRecord span)) r
    else if b = 16 then (.instrR .finishedRecord, true, r)
    else if b = 32 then
      runPayload (do
        let time ← readUintRd
        let time2 ← readUintRd
        let span ← readUintRd
        let target ← readCacheStr
        let pr ← readUintRd
        pure (CacheInstruction.startEvent (fromTimestampD time time2)
          (if span = 0 then none else some span) target (numPriority pr))) r
    else if b = 64 then (.instrR .finishedEvent, true, r)
    else if b = 128 then
      runPayload (do
        let name ← readCacheStr
        let value ← readValue
        pure (CacheInstruction.addValue name value)) r
    else if b = 0 then
      runPayload (do
        let span ← readUintRd
        if span = 0 then rdErr .zeroSpan else pure (CacheInstruction.deleteSpan span)) r
    else (.failR (.badOpcode b), true, r)

/-- The value conversion inside `Load::fetch_one`: cached strings in the
uncached view are `UnexpectedCached` errors. -/
def loadConvValue : Value CacheString → Except DErr (Value RStr)
  | .debug (.present s) => .ok (.debug s)
  | .debug (.cached _) => .error .unexpectedCached
  | .string (.present s) => .ok (.string s)
  | .string (.cached _) => .error .unexpectedCached
  | .float bits => .ok (.float bits)
  | .integer v => .ok (.integer v)
  | .unsigned v => .ok (.unsigned v)
  | .bool b => .ok (.bool b)
  | .byteArray bs => .ok (.byteArray bs)

/-- `Load::fetch_one`'s cached-to-uncached conversion. -/
def loadConv : CacheInstruction → Except DErr Instruction
  | .restart => .ok .restart
  | .newString _ => .error .unexpectedCached
  | .newSpan p s (.present n) => .ok (.newSpan p s n)
  | .newSpan _ _ (.cached _) => .error .unexpectedCached
  | .finishedSpan => .ok .finishedSpan
  | .newRecord s => .ok (.newRecord s)
  | .finishedRecord => .ok .finishedRecord
  | .startEvent t sp (.present tg) pr => .ok (.startEvent t sp tg pr)
  | .startEvent _ _ (.cached _) _ => .error .unexpectedCached
  | .finishedEvent => .ok .finishedEvent
  | .addValue (.present n) v =>
    match loadConvValue v with
    | .ok v2 => .ok (.addValue n v2)
    | .error e => .error e
  | .addValue (.cached _) _ => .error .unexpectedCached
  | .deleteSpan s => .ok (.deleteSpan s)

/-- `Load::fetch_one`: fetch a cached instruction, then strip the cache
layer (erroring on any cache reference). -/
def fetchOne (started : Bool) (l : List Nat) :
    FetchRes Instruction × Bool × List Nat :=
  match fetchOneCached started l with
  | (.eofR, st2, r) => (.eofR, st2, r)
  | (.failR e, st2, r) => (.failR e, st2, r)
  | (.instrR ci, st2, r) =>
    match loadConv ci with
    | .ok i => (.instrR i, st2, r)
    | .error e => (.failR e, st2, r)

/-- The decode loop of `Load::forward` / repeated `fetch_one`: collect
instructions until EOF, aborting on the first decode error.  `fuel`
bounds the recursion; `loadAll` supplies enough fuel that `fuelOut`
cannot occur (each iteration consumes at least one byte). -/
def loadLoop (fuel : Nat) (started : Bool) (l : List Nat)
    (acc : List Instruction) : Except DErr (List Instruction) :=
  match fuel with
  | 0 => .error .fuelOut
  | fuel + 1 =>
    match fetchOne started l with
    | (.eofR, _, _) => .ok acc.reverse
    | (.failR e, _, _) => .error e
    | (.instrR i, st2, l2) => loadLoop fuel st2 l2 (i :: acc)

/-- Decode an entire byte stream into uncached instructions. -/
def loadAll (l : List Nat) : Except DErr (List Instruction) :=
  loadLoop (l.length + 1) false l []

/-! ## Reader lemmas -/

theorem rd_bind (x : Rd α) (f : α → Rd β) (l : List Nat) :
    (x >>= f) l =
      (match x l with
       | (Except.ok a, l2) => f a l2
       | (Except.error e, l2) => (Except.error e, l2)) := rfl

theorem rd_pure (a : α) (l : List Nat) :
    (pure a : Rd α) l = (Except.ok a, l) := rfl

theorem rd_bind_ok {α β : Type} {x : Rd α} {f : α → Rd β} {l l2 : List Nat}
    {a : α} (h : x l = (Except.ok a, l2)) : (x >>= f) l = f a l2 := by
  rw [rd_bind, h]

theorem readByte_cons (b : Nat) (l : List Nat) :
    readByte (b :: l) = (Except.ok b, l) := rfl

theorem peekByte_cons (b : Nat) (l : List Nat) :
    peekByte (b :: l) = (Except.ok b, b :: l) := rfl

theorem readN_exact {n : Nat} (bs rest : List Nat) (h : bs.length = n) :
    readN n (bs ++ rest) = (Except.ok bs, rest) := by
  subst h
  simp [readN, List.take_left, List.drop_left]

/-- Round trip of the compact unsigned encoding. -/
theorem readUint_writeUint (v : Nat) (hv : v < 2 ^ 64) (rest : List Nat) :
    readUintRd (writeUint v ++ rest) = (Except.ok v, rest) := by
  unfold writeUint readUintRd
  by_cases h1 : v < 128
  · simp [h1, rd_bind, readByte_cons, rd_pure]
  by_cases h2 : v < 256
  · simp [h1, h2, rd_bind, readByte_cons, rd_pure]
  by_cases h3 : v < 65536
  · have hbe : readN 2 (be 2 v ++ rest) = (Except.ok (be 2 v), rest) :=
      readN_exact _ _ (be_length 2 v)
    simp [h1, h2, h3, rd_bind, readByte_cons, rd_pure, hbe,
      fromBE_be_of_lt (show v < 256 ^ 2 by omega)]
  by_cases h4 : v < 4294967296
  · have hbe : readN 4 (be 4 v ++ rest) = (Except.ok (be 4 v), rest) :=
      readN_exact _ _ (be_length 4 v)
    simp [h1, h2, h3, h4, rd_bind, readByte_cons, rd_pure, hbe,
      fromBE_be_of_lt (show v < 256 ^ 4 by omega)]
  · have hbe : readN 8 (be 8 v ++ rest) = (Except.ok (be 8 v), rest) :=
      readN_exact _ _ (be_length 8 v)
    simp [h1, h2, h3, h4, rd_bind, readByte_cons, rd_pure, hbe,
      fromBE_be_of_lt (show v < 256 ^ 8 by omega)]

/-- `write_sint` on a nonnegative value falls through to the unsigned
branches, byte for byte the same as `write_uint`. -/
theorem writeSint_nonneg (v : Int) (hv : 0 ≤ v) :
    writeSint v = writeUint v.toNat := by
  unfold writeSint
  have h1 : ¬(-32 ≤ v ∧ v < 0) := by omega
  have h2 : ¬(-128 ≤ v ∧ v < -32) := by omega
  have h3 : ¬(-32768 ≤ v ∧ v < -128) := by omega
  have h4 : ¬(-2147483648 ≤ v ∧ v < -32768) := by omega
  have h5 : ¬(v < -2147483648) := by omega
  simp [h1, h2, h3, h4, h5]

/-- Round trip of the signed encoding through the signed reader, for
values that `write_sint` keeps in the signed marker family. -/
theorem readInt_writeSint (v : Int) (hlo : -(2 ^ 63) ≤ v) (hhi : v < 128)
    (rest : List Nat) :
    readIntRd (writeSint v ++ rest) = (Except.ok v, rest) := by
  unfold writeSint readIntRd
  by_cases h1 : -32 ≤ v ∧ v < 0
  · have hb : 224 ≤ (v + 256).toNat ∧ (v + 256).toNat ≤ 255 := by omega
    have hb2 : ¬(v + 256).toNat < 128 := by omega
    simp [h1, rd_bind, readByte_cons, rd_pure, hb.1, hb.2, hb2]
    omega
  by_cases h2 : -128 ≤ v ∧ v < -32
  · have hlt : ¬(v + 256).toNat < 128 := by omega
    simp [h1, h2, rd_bind, readByte_cons, rd_pure, hlt]
    omega
  by_cases h3 : -32768 ≤ v ∧ v < -128
  · have hbe : readN 2 (be 2 (v + 65536).toNat ++ rest) =
        (Except.ok (be 2 (v + 65536).toNat), rest) := readN_exact _ _ (be_length 2 _)
    have hv2 : (v + 65536).toNat < 256 ^ 2 := by omega
    have hge : ¬(v + 65536).toNat < 32768 := by omega
    simp [h1, h2, h3, rd_bind, readByte_cons, rd_pure, hbe,
      fromBE_be_of_lt hv2, hge]
    omega
  by_cases h4 : -2147483648 ≤ v ∧ v < -32768
  · have hbe : readN 4 (be 4 (v + 4294967296).toNat ++ rest) =
        (Except.ok (be 4 (v + 4294967296).toNat), rest) := readN_exact _ _ (be_length 4 _)
    have hv2 : (v + 4294967296).toNat < 256 ^ 4 := by omega
    have hge : ¬(v + 4294967296).toNat < 2147483648 := by omega
    simp [h1, h2, h3, h4, rd_bind, readByte_cons, rd_pure, hbe,
      fromBE_be_of_lt hv2, hge]
    omega
  by_cases h5 : v < -2147483648
  · have hbe : readN 8 (be 8 (v + 18446744073709551616).toNat ++ rest) =
        (Except.ok (be 8 (v + 18446744073709551616).toNat), rest) :=
      readN_exact _ _ (be_length 8 _)
    have hv2 : (v + 18446744073709551616).toNat < 256 ^ 8 := by omega
    have hge : ¬(v + 18446744073709551616).toNat < 9223372036854775808 := by omega
    simp [h1, h2, h3, h4, h5, rd_bind, readByte_cons, rd_pure, hbe,
      fromBE_be_of_lt hv2, hge]
    omega
  · have hsm : v.toNat < 128 := by omega
    simp [h1, h2, h3, h4, h5, writeUint, hsm, rd_bind, readByte_cons, rd_pure]
    omega

/-- Round trip of a literal string write through `do_read_str`. -/
theorem readStr_writeStr (s : RStr) (hu : utf8Valid s = true)
    (hl : s.length < 2 ^ 32) (rest : List Nat) :
    readStrRd (writeStr s ++ rest) = (Except.ok s, rest) := by
  unfold writeStr readStrRd readStrLen
  have hs : readN s.length (s ++ rest) = (Except.ok s, rest) := readN_exact _ _ rfl
  by_cases h1 : s.length < 32
  · have ha : 0xa0 ≤ 0xa0 + s.length ∧ 0xa0 + s.length ≤ 0xbf := by omega
    simp [h1, rd_bind, readByte_cons, rd_pure, ha.1, ha.2, hs, hu]
  by_cases h2 : s.length < 256
  · simp [h1, h2, rd_bind, readByte_cons, rd_pure, hs, hu]
  by_cases h3 : s.length < 65536
  · have hbe : readN 2 (be 2 s.length ++ (s ++ rest)) =
        (Except.ok (be 2 s.length), s ++ rest) := readN_exact _ _ (be_length 2 _)
    simp [h1, h2, h3, rd_bind, readByte_cons, rd_pure, hbe,
      fromBE_be_of_lt (show s.length < 256 ^ 2 by omega), hs, hu]
  · have hbe : readN 4 (be 4 s.length ++ (s ++ rest)) =
        (Except.ok (be 4 s.length), s ++ rest) := readN_exact _ _ (be_length 4 _)
    simp [h1, h2, h3, rd_bind, readByte_cons, rd_pure, hbe,
      fromBE_be_of_lt (show s.length < 256 ^ 4 by omega), hs, hu]

/-- Round trip of a binary write through `read_bin_len` + `read_exact`. -/
theorem readBin_writeBin (bs : List Nat) (hl : bs.length < 2 ^ 32) (rest : List Nat) :
    (do
      let n ← readBinLen
      let d ← readN n
      (pure (Value.byteArray d) : Rd (Value CacheString))) (writeBin bs ++ rest) =
      (Except.ok (Value.byteArray bs), rest) := by
  unfold writeBin readBinLen
  have hs : readN bs.length (bs ++ rest) = (Except.ok bs, rest) := readN_exact _ _ rfl
  by_cases h1 : bs.length < 256
  · simp [h1, rd_bind, readByte_cons, rd_pure, hs]
  by_cases h2 : bs.length < 65536
  · have hbe : readN 2 (be 2 bs.length ++ (bs ++ rest)) =
        (Except.ok (be 2 bs.length), bs ++ rest) := readN_exact _ _ (be_length 2 _)
    simp [h1, h2, rd_bind, readByte_cons, rd_pure, hbe,
      fromBE_be_of_lt (show bs.length < 256 ^ 2 by omega), hs]
  · have hbe : readN 4 (be 4 bs.length ++ (bs ++ rest)) =
        (Except.ok (be 4 bs.length), bs ++ rest) := readN_exact _ _ (be_length 4 _)
    simp [h1, h2, rd_bind, readByte_cons, rd_pure, hbe,
      fromBE_be_of_lt (show bs.length < 256 ^ 4 by omega), hs]

/-! ## CacheIndex round trips (claim C5 infrastructure) -/

/-- Converting an index to a `CacheIndex` and back is the identity. -/
theorem cacheIndex_toU64_ofU64 (i : Nat) (h : i < 2 ^ 64) :
    (CacheIndex.ofU64 i).toU64 = i := by
  unfold CacheIndex.ofU64 CacheIndex.toU64
  by_cases h1 : i < 65536
  · simp [h1, fromLE_le_of_lt (show i < 256 ^ 2 by omega)]
  by_cases h2 : i < 16777216
  · simp [h1, h2, fromLE_le_of_lt (show i < 256 ^ 3 by omega)]
  by_cases h3 : i < 1099511627776
  · simp [h1, h2, h3, fromLE_le_of_lt (show i < 256 ^ 5 by omega)]
  · simp [h1, h2, h3, fromLE_le_of_lt (show i < 256 ^ 8 by omega)]

/-- `CacheIndex::read` inverts `CacheIndex::write`. -/
theorem cacheIndexRead_write (i : Nat) (rest : List Nat) :
    cacheIndexRead ((CacheIndex.ofU64 i).write ++ rest) =
      (Except.ok (CacheIndex.ofU64 i), rest) := by
  unfold CacheIndex.ofU64 CacheIndex.write CacheIndex.markerByte CacheIndex.data
    cacheIndexRead
  by_cases h1 : i < 65536
  · simp [h1, rd_bind, readByte_cons, rd_pure, readN_exact _ _ (le_length 2 i)]
  by_cases h2 : i < 16777216
  · simp [h1, h2, rd_bind, readByte_cons, rd_pure, readN_exact _ _ (le_length 3 i)]
  by_cases h3 : i < 1099511627776
  · simp [h1, h2, h3, rd_bind, readByte_cons, rd_pure, readN_exact _ _ (le_length 5 i)]
  · have hlen : (0 :: le 8 i).length = 9 := by simp [le_length 8 i]
    have h9 : readN 9 (0 :: (le 8 i ++ rest)) = (Except.ok (0 :: le 8 i), rest) := by
      simpa using readN_exact (0 :: le 8 i) rest hlen
    simp [h1, h2, h3, rd_bind, readByte_cons, rd_pure, h9]

/-! ## Cache-string and value round trips -/

/-- Well-formed string: valid UTF-8 (as Rust `&str` guarantees) and
below the str32 length limit. -/
def wfStr (s : RStr) : Prop := utf8Valid s = true ∧ s.length < 2 ^ 32

/-- Well-formed cache string: a well-formed literal or a `u64` index. -/
def wfCS : CacheString → Prop
  | .present s => wfStr s
  | .cached i => i < 2 ^ 64

/-- The first byte of `write_str` output is a str-family marker, and the
output is nonempty. -/
theorem writeStr_shape (s : RStr) :
    ∃ m t, writeStr s = m :: t ∧ isStrMarker m = true ∧ 0xa0 ≤ m ∧ m ≤ 0xdb := by
  unfold writeStr
  by_cases h1 : s.length < 32
  · exact ⟨0xa0 + s.length, s, by simp [h1], by simp [isStrMarker]; omega, by omega,
      by omega⟩
  by_cases h2 : s.length < 256
  · exact ⟨0xd9, s.length :: s, by simp [h1, h2], by simp [isStrMarker], by omega,
      by omega⟩
  by_cases h3 : s.length < 65536
  · exact ⟨0xda, be 2 s.length ++ s, by simp [h1, h2, h3], by simp [isStrMarker],
      by omega, by omega⟩
  · exact ⟨0xdb, be 4 s.length ++ s, by simp [h1, h2, h3], by simp [isStrMarker],
      by omega, by omega⟩

/-- `do_read_cache_str` inverts `write_cache_str` on a literal. -/
theorem readCacheStr_present (s : RStr) (hu : utf8Valid s = true)
    (hl : s.length < 2 ^ 32) (rest : List Nat) :
    readCacheStr (writeCacheStr (.present s) ++ rest) =
      (Except.ok (CacheString.present s), rest) := by
  obtain ⟨m, t, hw, hm, _, _⟩ := writeStr_shape s
  have hrt := readStr_writeStr s hu hl rest
  unfold readCacheStr
  simp only [writeCacheStr]
  rw [hw] at hrt ⊢
  rw [List.cons_append] at hrt ⊢
  simp [rd_bind, peekByte_cons, hm, hrt, rd_pure]

/-- `do_read_cache_str` inverts `write_cache_str` on a cache index. -/
theorem readCacheStr_cached (i : Nat) (h : i < 2 ^ 64) (rest : List Nat) :
    readCacheStr (writeCacheStr (.cached i) ++ rest) =
      (Except.ok (CacheString.cached i), rest) := by
  have hmk : 0xd4 ≤ (CacheIndex.ofU64 i).markerByte ∧
      (CacheIndex.ofU64 i).markerByte ≤ 0xd7 := by
    unfold CacheIndex.ofU64 CacheIndex.markerByte
    by_cases h1 : i < 65536
    · simp [h1]
    by_cases h2 : i < 16777216
    · simp [h1, h2]
    by_cases h3 : i < 1099511627776
    · simp [h1, h2, h3]
    · simp [h1, h2, h3]
  have hns : isStrMarker (CacheIndex.ofU64 i).markerByte = false := by
    simp [isStrMarker]
    omega
  have hrd := cacheIndexRead_write i rest
  unfold readCacheStr
  simp only [writeCacheStr, CacheIndex.write] at hrd ⊢
  rw [List.cons_append] at hrd ⊢
  simp [rd_bind, peekByte_cons, hns, hmk.1, hmk.2, hrd, rd_pure,
    cacheIndex_toU64_ofU64 i h]

/-- Shape of `write_uint` output for values at least 128: a `u8`/`u16`/
`u32`/`u64` marker `0xcc..=0xcf`. -/
theorem writeUint_shape_big (v : Nat) (h : 128 ≤ v) :
    ∃ m t, writeUint v = m :: t ∧ 0xcc ≤ m ∧ m ≤ 0xcf := by
  unfold writeUint
  have h1 : ¬v < 128 := by omega
  by_cases h2 : v < 256
  · exact ⟨0xcc, [v], by simp [h1, h2], by omega, by omega⟩
  by_cases h3 : v < 65536
  · exact ⟨0xcd, be 2 v, by simp [h1, h2, h3], by omega, by omega⟩
  by_cases h4 : v < 4294967296
  · exact ⟨0xce, be 4 v, by simp [h1, h2, h3, h4], by omega, by omega⟩
  · exact ⟨0xcf, be 8 v, by simp [h1, h2, h3, h4], by omega, by omega⟩

/-- Shape of `write_sint` output for negative values: a `FixNeg` byte or
an `i8`/`i16`/`i32`/`i64` marker `0xd0..=0xd3`. -/
theorem writeSint_shape_neg (v : Int) (h : v < 0) :
    ∃ m t, writeSint v = m :: t ∧ ((0xe0 ≤ m ∧ m ≤ 0xff) ∨ (0xd0 ≤ m ∧ m ≤ 0xd3)) := by
  unfold writeSint
  by_cases h1 : -32 ≤ v ∧ v < 0
  · exact ⟨(v + 256).toNat, [], by simp [h1], by omega⟩
  by_cases h2 : -128 ≤ v ∧ v < -32
  · exact ⟨0xd0, [(v + 256).toNat], by simp [h1, h2], by omega⟩
  by_cases h3 : -32768 ≤ v ∧ v < -128
  · exact ⟨0xd1, be 2 (v + 65536).toNat, by simp [h1, h2, h3], by omega⟩
  by_cases h4 : -2147483648 ≤ v ∧ v < -32768
  · exact ⟨0xd2, be 4 (v + 4294967296).toNat, by simp [h1, h2, h3, h4], by omega⟩
  · have h5 : v < -2147483648 := by omega
    exact ⟨0xd3, be 8 (v + 18446744073709551616).toNat,
      by simp [h1, h2, h3, h4, h5], by omega⟩

/-- `do_read_value` inverts the `Debug` encoding (1-element array plus
cache string), preserving the debug tag. -/
theorem readValue_debug (cs : CacheString) (hcs : wfCS cs) (rest : List Nat) :
    readValue (writeCacheValue (.debug cs) ++ rest) =
      (Except.ok (Value.debug cs), rest) := by
  have hstr : readCacheStr (writeCacheStr cs ++ rest) = (Except.ok cs, rest) := by
    cases cs with
    | present s => exact readCacheStr_present s hcs.1 hcs.2 rest
    | cached i => exact readCacheStr_cached i hcs rest
  unfold readValue
  simp only [writeCacheValue]
  rw [List.cons_append]
  simp [rd_bind, peekByte_cons, readByte_cons, hstr, rd_pure]

/-- `do_read_value` inverts the `String` encoding. -/
theorem readValue_string (cs : CacheString) (hcs : wfCS cs) (rest : List Nat) :
    readValue (writeCacheValue (.string cs) ++ rest) =
      (Except.ok (Value.string cs), rest) := by
  have hstr : readCacheStr (writeCacheStr cs ++ rest) = (Except.ok cs, rest) := by
    cases cs with
    | present s => exact readCacheStr_present s hcs.1 hcs.2 rest
    | cached i => exact readCacheStr_cached i hcs rest
  cases cs with
  | present s =>
    obtain ⟨m, t, hw, hm, hlo, hhi⟩ := writeStr_shape s
    have hcases : (0xa0 ≤ m ∧ m ≤ 0xbf) ∨ m = 0xd9 ∨ m = 0xda ∨ m = 0xdb := by
      revert hm
      simp [isStrMarker]
      omega
    have h91 : ¬m = 0x91 := by omega
    have hint : ¬(m < 0x80 ∨ 0xe0 ≤ m ∨ (0xd0 ≤ m ∧ m ≤ 0xd3)) := by omega
    unfold readValue
    simp only [writeCacheValue, writeCacheStr] at hstr ⊢
    rw [hw] at hstr ⊢
    rw [List.cons_append] at hstr ⊢
    simp only [rd_bind_ok (peekByte_cons m (t ++ rest))]
    rw [if_neg h91, if_neg hint, if_pos (Or.inl hm)]
    simp only [rd_bind_ok hstr, rd_pure]
  | cached i =>
    have hmk : 0xd4 ≤ (CacheIndex.ofU64 i).markerByte ∧
        (CacheIndex.ofU64 i).markerByte ≤ 0xd7 := by
      unfold CacheIndex.ofU64 CacheIndex.markerByte
      by_cases h1 : i < 65536
      · simp [h1]
      by_cases h2 : i < 16777216
      · simp [h1, h2]
      by_cases h3 : i < 1099511627776
      · simp [h1, h2, h3]
      · simp [h1, h2, h3]
    have h91 : ¬(CacheIndex.ofU64 i).markerByte = 0x91 := by omega
    have hint : ¬((CacheIndex.ofU64 i).markerByte < 0x80 ∨
        0xe0 ≤ (CacheIndex.ofU64 i).markerByte ∨
        (0xd0 ≤ (CacheIndex.ofU64 i).markerByte ∧
          (CacheIndex.ofU64 i).markerByte ≤ 0xd3)) := by omega
    unfold readValue
    simp only [writeCacheValue, writeCacheStr, CacheIndex.write] at hstr ⊢
    rw [List.cons_append] at hstr ⊢
    simp [rd_bind, peekByte_cons, h91, hint, hmk.1, hmk.2, hstr, rd_pure]

/-- `do_read_value` inverts the `Float` (f64) encoding bit-exactly. -/
theorem readValue_float (bits : Nat) (h : bits < 2 ^ 64) (rest : List Nat) :
    readValue (writeCacheValue (.float bits) ++ rest) =
      (Except.ok (Value.float bits), rest) := by
  have hbe : readN 8 (be 8 bits ++ rest) = (Except.ok (be 8 bits), rest) :=
    readN_exact _ _ (be_length 8 bits)
  unfold readValue
  simp only [writeCacheValue]
  rw [List.cons_append]
  simp [rd_bind, peekByte_cons, readByte_cons, hbe, rd_pure,
    fromBE_be_of_lt (show bits < 256 ^ 8 by omega), isStrMarker]

/-- `do_read_value` inverts the `ByteArray` encoding. -/
theorem readValue_byteArray (bs : List Nat) (h : bs.length < 2 ^ 32)
    (rest : List Nat) :
    readValue (writeCacheValue (.byteArray bs) ++ rest) =
      (Except.ok (Value.byteArray bs), rest) := by
  have hrb := readBin_writeBin bs h rest
  unfold readValue
  simp only [writeCacheValue]
  unfold writeBin at hrb ⊢
  by_cases h1 : bs.length < 256
  · rw [if_pos h1] at hrb ⊢
    rw [List.cons_append] at hrb ⊢
    simp [rd_bind, peekByte_cons, rd_pure, isStrMarker] at hrb ⊢
    simp [hrb]
  by_cases h2 : bs.length < 65536
  · rw [if_neg h1, if_pos h2] at hrb ⊢
    rw [List.cons_append] at hrb ⊢
    simp [rd_bind, peekByte_cons, rd_pure, isStrMarker] at hrb ⊢
    simp [hrb]
  · rw [if_neg h1, if_neg h2] at hrb ⊢
    rw [List.cons_append] at hrb ⊢
    simp [rd_bind, peekByte_cons, rd_pure, isStrMarker] at hrb ⊢
    simp [hrb]

/-- `do_read_value` on an encoded `Integer`: small nonnegative values
stay `Integer`, values at least 128 come back as `Unsigned`. -/
theorem readValue_integer (v : Int) (hlo : -(2 ^ 63) ≤ v) (hhi : v < 2 ^ 63)
    (rest : List Nat) :
    readValue (writeCacheValue (.integer v) ++ rest) =
      (Except.ok (if 128 ≤ v then Value.unsigned v.toNat else Value.integer v),
        rest) := by
  rcases Int.lt_or_le v 0 with hneg | hpos
  · obtain ⟨m, t, hw, hm⟩ := writeSint_shape_neg v hneg
    have hri := readInt_writeSint v hlo (by omega) rest
    have h91 : ¬m = 0x91 := by omega
    have hint : m < 0x80 ∨ 0xe0 ≤ m ∨ (0xd0 ≤ m ∧ m ≤ 0xd3) := by omega
    have hif : ¬(128 ≤ v) := by omega
    unfold readValue
    simp only [writeCacheValue] at hri ⊢
    rw [hw] at hri ⊢
    rw [List.cons_append] at hri ⊢
    simp [rd_bind, peekByte_cons, h91, hint, hri, rd_pure, hif]
  · rcases Int.lt_or_le v 128 with hsm | hbig
    · have hri := readInt_writeSint v hlo hsm rest
      have hw : writeSint v = [v.toNat] := by
        rw [writeSint_nonneg v hpos]
        unfold writeUint
        simp [show v.toNat < 128 by omega]
      have h91 : ¬v.toNat = 0x91 := by omega
      have hint : v.toNat < 0x80 ∨ 0xe0 ≤ v.toNat ∨
          (0xd0 ≤ v.toNat ∧ v.toNat ≤ 0xd3) := by omega
      have hif : ¬(128 ≤ v) := by omega
      unfold readValue
      simp only [writeCacheValue]
      rw [hw] at hri ⊢
      simp only [List.cons_append, List.nil_append] at hri ⊢
      simp only [rd_bind_ok (peekByte_cons v.toNat rest)]
      rw [if_neg h91, if_pos hint]
      simp only [rd_bind_ok hri, rd_pure]
      rw [if_neg hif]
    · obtain ⟨m, t, hw, hmlo, hmhi⟩ := writeUint_shape_big v.toNat (by omega)
      have hru := readUint_writeUint v.toNat (by omega) rest
      have h91 : ¬m = 0x91 := by omega
      have hint : ¬(m < 0x80 ∨ 0xe0 ≤ m ∨ (0xd0 ≤ m ∧ m ≤ 0xd3)) := by omega
      have hstr : isStrMarker m = false := by simp [isStrMarker]; omega
      have hnstr : ¬(isStrMarker m = true ∨ (0xd4 ≤ m ∧ m ≤ 0xd7)) := by
        simp [hstr]
        omega
      have hc2 : ¬m = 0xc2 := by omega
      have hc3 : ¬m = 0xc3 := by omega
      have hbin : ¬(m = 0xc4 ∨ m = 0xc5 ∨ m = 0xc6) := by omega
      have hca : ¬m = 0xca := by omega
      have hcb : ¬m = 0xcb := by omega
      have hcc : 0xcc ≤ m ∧ m ≤ 0xcf := ⟨hmlo, hmhi⟩
      have hif : 128 ≤ v := hbig
      unfold readValue
      simp only [writeCacheValue]
      rw [writeSint_nonneg v hpos, hw]
      rw [hw] at hru
      rw [List.cons_append] at hru ⊢
      simp only [rd_bind_ok (peekByte_cons m (t ++ rest))]
      rw [if_neg h91, if_neg hint, if_neg hnstr, if_neg hc2, if_neg hc3,
        if_neg hbin, if_neg hca, if_neg hcb, if_pos hcc]
      simp only [rd_bind_ok hru, rd_pure]
      rw [if_pos hif]

/-- `do_read_value` on an encoded `Unsigned`: values below 128 become
`Integer` (the `FixPos` marker is in the signed family on read), larger
values stay `Unsigned`. -/
theorem readValue_unsigned (v : Nat) (h : v < 2 ^ 64) (rest : List Nat) :
    readValue (writeCacheValue (.unsigned v) ++ rest) =
      (Except.ok (if v < 128 then Value.integer v else Value.unsigned v),
        rest) := by
  rcases Nat.lt_or_ge v 128 with hsm | hbig
  · have hw : writeUint v = [v] := by
      unfold writeUint
      simp [hsm]
    have h91 : ¬v = 0x91 := by omega
    have hint : v < 0x80 ∨ 0xe0 ≤ v ∨ (0xd0 ≤ v ∧ v ≤ 0xd3) := by omega
    unfold readValue readIntRd
    simp only [writeCacheValue]
    rw [hw]
    rw [List.cons_append]
    simp [rd_bind, peekByte_cons, readByte_cons, h91, hint, rd_pure, hsm]
  · obtain ⟨m, t, hw, hmlo, hmhi⟩ := writeUint_shape_big v hbig
    have hru := readUint_writeUint v h rest
    have h91 : ¬m = 0x91 := by omega
    have hint : ¬(m < 0x80 ∨ 0xe0 ≤ m ∨ (0xd0 ≤ m ∧ m ≤ 0xd3)) := by omega
    have hstr : isStrMarker m = false := by simp [isStrMarker]; omega
    have hnstr : ¬(isStrMarker m = true ∨ (0xd4 ≤ m ∧ m ≤ 0xd7)) := by
      simp [hstr]
      omega
    have hc2 : ¬m = 0xc2 := by omega
    have hc3 : ¬m = 0xc3 := by omega
    have hbin : ¬(m = 0xc4 ∨ m = 0xc5 ∨ m = 0xc6) := by omega
    have hca : ¬m = 0xca := by omega
    have hcb : ¬m = 0xcb := by omega
    have hcc : 0xcc ≤ m ∧ m ≤ 0xcf := ⟨hmlo, hmhi⟩
    have hif : ¬v < 128 := by omega
    unfold readValue
    simp only [writeCacheValue]
    rw [hw] at hru ⊢
    rw [List.cons_append] at hru ⊢
    simp only [rd_bind_ok (peekByte_cons m (t ++ rest))]
    rw [if_neg h91, if_neg hint, if_neg hnstr, if_neg hc2, if_neg hc3,
      if_neg hbin, if_neg hca, if_neg hcb, if_pos hcc]
    simp only [rd_bind_ok hru, rd_pure]
    rw [if_neg hif]

/-! ## Well-formedness and the decode normalization -/

/-- Well-formed span id: `NonZeroU64`. -/
def wfSpan (n : Nat) : Prop := 0 < n ∧ n < 2 ^ 64

/-- Well-formed optional span id (`Option<NonZeroU64>`). -/
def wfParent : Option Nat → Prop
  | none => True
  | some p => wfSpan p

/-- The signed reading of the stored u64 seconds (`time as i64` on the
decode path): values at or above `2 ^ 63` are negative, pre-1970
timestamps. -/
def tsSigned (t : Ts) : Int :=
  if t.sec < 2 ^ 63 then (t.sec : Int) else (t.sec : Int) - 2 ^ 64

/-- Timestamp within chrono's representable range (so that the decode's
`from_timestamp(..).unwrap_or_default()` reproduces it): the seconds
field is a u64 whose signed reading lies in
`[chronoMinSec, chronoMaxSec]` — covering the negative, pre-1970 half
of the range — and the nanoseconds are below `2 * 10 ^ 9`. -/
def wfTs (t : Ts) : Prop :=
  t.sec < 2 ^ 64 ∧ chronoMinSec ≤ tsSigned t ∧ tsSigned t ≤ chronoMaxSec ∧
    t.nsec < 2000000000

/-- Well-formed attribute value, as the wire format constrains it.
`bool` is excluded: the decoder's `Bool` arms do not consume the marker
byte, so a stream containing a `Bool` value desynchronizes. -/
def wfValue : Value RStr → Prop
  | .debug s => wfStr s
  | .string s => wfStr s
  | .float bits => bits < 2 ^ 64
  | .integer v => -(2 ^ 63) ≤ v ∧ v < 2 ^ 63
  | .unsigned v => v < 2 ^ 64
  | .bool _ => False
  | .byteArray bs => bs.length < 2 ^ 32

/-- Well-formed instruction: the field constraints the Rust types
(`NonZeroU64`, `&str`, `DateTime`, `i64`/`u64`) guarantee. -/
def wfInstr : Instruction → Prop
  | .restart => True
  | .newSpan p sp n => wfParent p ∧ wfSpan sp ∧ wfStr n
  | .finishedSpan => True
  | .newRecord sp => wfSpan sp
  | .finishedRecord => True
  | .startEvent t sp tg _ => wfTs t ∧ wfParent sp ∧ wfStr tg
  | .finishedEvent => True
  | .addValue n v => wfStr n ∧ wfValue v
  | .deleteSpan sp => wfSpan sp

/-- The value change a store/load round trip applies: the `Debug` tag is
dropped to `String` by `do_handle`, and the most-compact integer
encoding moves nonnegative values at least 128 into `Unsigned` and
values below 128 into `Integer` (`FixPos` reads back as signed). -/
def normValue : Value RStr → Value RStr
  | .debug s => .string s
  | .string s => .string s
  | .float bits => .float bits
  | .integer v => if 128 ≤ v then .unsigned v.toNat else .integer v
  | .unsigned v => if v < 128 then .integer (v : Int) else .unsigned v
  | .bool b => .bool b
  | .byteArray bs => .byteArray bs

/-- The instruction change a store/load round trip applies. -/
def normInstr : Instruction → Instruction
  | .addValue n v => .addValue n (normValue v)
  | i => i

theorem chronoMaxSec_eq : chronoMaxSec = 8210298412799 := by decide

theorem chronoMinSec_lt : chronoMinSec < 0 := by decide

theorem fromTimestampD_eq (t : Ts) (h : wfTs t) :
    fromTimestampD t.sec t.nsec = t := by
  obtain ⟨h0, h1, h2, h3⟩ := h
  unfold tsSigned at h1 h2
  have hn : t.nsec % 4294967296 = t.nsec := Nat.mod_eq_of_lt (by omega)
  unfold fromTimestampD
  rw [if_pos ?hc]
  · simp [hn]
  case hc =>
    by_cases hsec : t.sec < 2 ^ 63
    · rw [if_pos hsec] at h1 h2 ⊢
      exact ⟨h1, h2, by omega⟩
    · rw [if_neg hsec] at h1 h2 ⊢
      exact ⟨h1, h2, by omega⟩

theorem numPriority_priorityNum (p : Priority) :
    numPriority (priorityNum p) = p := by
  cases p <;> rfl

/-- `read_int` round trip at the bind level, for simp chaining. -/
theorem readUint_bind {β : Type} (v : Nat) (hv : v < 2 ^ 64) (f : Nat → Rd β)
    (rest : List Nat) :
    (readUintRd >>= f) (writeUint v ++ rest) = f v rest :=
  rd_bind_ok (readUint_writeUint v hv rest)

/-- `do_read_str` round trip at the bind level. -/
theorem readStr_bind {β : Type} (s : RStr) (hu : utf8Valid s = true)
    (hl : s.length < 2 ^ 32) (f : RStr → Rd β) (rest : List Nat) :
    (readStrRd >>= f) (writeStr s ++ rest) = f s rest :=
  rd_bind_ok (readStr_writeStr s hu hl rest)

/-- `do_read_cache_str` round trip at the bind level (literal). -/
theorem readCacheStr_bind_present {β : Type} (s : RStr) (hu : utf8Valid s = true)
    (hl : s.length < 2 ^ 32) (f : CacheString → Rd β) (rest : List Nat) :
    (readCacheStr >>= f) (writeCacheStr (.present s) ++ rest) =
      f (.present s) rest :=
  rd_bind_ok (readCacheStr_present s hu hl rest)

/-- `do_read_cache_str` round trip at the bind level (cache index). -/
theorem readCacheStr_bind_cached {β : Type} (i : Nat) (h : i < 2 ^ 64)
    (f : CacheString → Rd β) (rest : List Nat) :
    (readCacheStr >>= f) (writeCacheStr (.cached i) ++ rest) =
      f (.cached i) rest :=
  rd_bind_ok (readCacheStr_cached i h rest)

/-- `do_read_value` inverts `write_cache_value ∘ storeConvValue` up to
the integer/unsigned normalization. -/
theorem readValue_conv (v : Value RStr) (h : wfValue v) (rest : List Nat) :
    readValue (writeCacheValue (storeConvValue v) ++ rest) =
      (Except.ok (storeConvValue (normValue v)), rest) := by
  cases v with
  | debug s => exact readValue_string (.present s) h rest
  | string s => exact readValue_string (.present s) h rest
  | float bits => exact readValue_float bits h rest
  | integer v =>
    rw [show storeConvValue (Value.integer v) = Value.integer v from rfl,
      readValue_integer v h.1 h.2 rest]
    rcases le_or_lt 128 v with hc | hc
    · simp [hc, normValue, storeConvValue]
    · simp [show ¬(128 ≤ v) by omega, normValue, storeConvValue]
  | unsigned v =>
    rw [show storeConvValue (Value.unsigned v) = Value.unsigned v from rfl,
      readValue_unsigned v h rest]
    rcases Nat.lt_or_ge v 128 with hc | hc
    · simp [hc, normValue, storeConvValue]
    · simp [show ¬(v < 128) by omega, normValue, storeConvValue]
  | bool b => exact absurd h (by simp [wfValue])
  | byteArray bs => exact readValue_byteArray bs h rest

/-- `do_read_value` round trip at the bind level. -/
theorem readValue_bind {β : Type} (v : Value RStr) (h : wfValue v)
    (f : Value CacheString → Rd β) (rest : List Nat) :
    (readValue >>= f) (writeCacheValue (storeConvValue v) ++ rest) =
      f (storeConvValue (normValue v)) rest :=
  rd_bind_ok (readValue_conv v h rest)

/-- Stripping the cache layer undoes `storeConvValue` on a normalized
value. -/
theorem loadConvValue_norm (v : Value RStr) :
    loadConvValue (storeConvValue (normValue v)) = Except.ok (normValue v) := by
  cases v with
  | integer v =>
    rcases le_or_lt 128 v with hc | hc
    · simp [hc, normValue, storeConvValue, loadConvValue]
    · simp [show ¬(128 ≤ v) by omega, normValue, storeConvValue, loadConvValue]
  | unsigned v =>
    rcases Nat.lt_or_ge v 128 with hc | hc
    · simp [hc, normValue, storeConvValue, loadConvValue]
    · simp [show ¬(v < 128) by omega, normValue, storeConvValue, loadConvValue]
  | _ => rfl

theorem priorityNum_lt (p : Priority) : priorityNum p < 2 ^ 64 := by
  cases p <;> decide

/-- One encoded instruction decodes back (via `fetch_one`) to its
normalization, consuming exactly its own bytes. -/
theorem fetchOne_encode (i : Instruction) (h : wfInstr i) (rest : List Nat) :
    fetchOne true (storeDoHandle i ++ rest) =
      (FetchRes.instrR (normInstr i), true, rest) := by
  cases i with
  | restart =>
    simp [storeDoHandle, storeConv, storeDoHandleCached, CacheInstruction.idByte,
      fetchOne, fetchOneCached, syncByte, loadConv, normInstr]
  | finishedSpan =>
    simp [storeDoHandle, storeConv, storeDoHandleCached, CacheInstruction.idByte,
      fetchOne, fetchOneCached, syncByte, loadConv, normInstr]
  | finishedRecord =>
    simp [storeDoHandle, storeConv, storeDoHandleCached, CacheInstruction.idByte,
      fetchOne, fetchOneCached, syncByte, loadConv, normInstr]
  | finishedEvent =>
    simp [storeDoHandle, storeConv, storeDoHandleCached, CacheInstruction.idByte,
      fetchOne, fetchOneCached, syncByte, loadConv, normInstr]
  | deleteSpan sp =>
    have hz : ¬sp = 0 := by
      have := h.1
      omega
    simp [storeDoHandle, storeConv, storeDoHandleCached, CacheInstruction.idByte,
      fetchOne, fetchOneCached, syncByte, runPayload, loadConv, normInstr,
      List.cons_append, readUint_bind sp h.2, hz, rd_pure]
  | newRecord sp =>
    have hz : ¬sp = 0 := by
      have := h.1
      omega
    simp [storeDoHandle, storeConv, storeDoHandleCached, CacheInstruction.idByte,
      fetchOne, fetchOneCached, syncByte, runPayload, loadConv, normInstr,
      List.cons_append, readUint_bind sp h.2, hz, rd_pure]
  | newSpan p sp n =>
    obtain ⟨hp, hsp, hn⟩ := h
    have hpd : p.getD 0 < 2 ^ 64 := by
      cases p with
      | none => decide
      | some q => exact hp.2
    have hz : ¬sp = 0 := by
      have := hsp.1
      omega
    have hopt : (if p.getD 0 = 0 then (none : Option Nat) else some (p.getD 0)) = p := by
      cases p with
      | none => simp
      | some q =>
        have : ¬q = 0 := by
          have := hp.1
          omega
        simp [this]
    simp [storeDoHandle, storeConv, storeDoHandleCached, CacheInstruction.idByte,
      fetchOne, fetchOneCached, syncByte, runPayload, loadConv, normInstr,
      List.cons_append, List.append_assoc, readUint_bind _ hpd,
      readUint_bind sp hsp.2, readCacheStr_bind_present n hn.1 hn.2, hz, hopt,
      rd_pure]
  | startEvent t sp tg pr =>
    obtain ⟨ht, hsp, htg⟩ := h
    have hts : t.sec < 2 ^ 64 := ht.1
    have htn : t.nsec < 2 ^ 64 := by
      have := ht.2.2.2
      omega
    have hpd : sp.getD 0 < 2 ^ 64 := by
      cases sp with
      | none => decide
      | some q => exact hsp.2
    have hopt : (if sp.getD 0 = 0 then (none : Option Nat) else some (sp.getD 0)) = sp := by
      cases sp with
      | none => simp
      | some q =>
        have : ¬q = 0 := by
          have := hsp.1
          omega
        simp [this]
    simp [storeDoHandle, storeConv, storeDoHandleCached, CacheInstruction.idByte,
      fetchOne, fetchOneCached, syncByte, runPayload, loadConv, normInstr,
      List.cons_append, List.append_assoc, readUint_bind t.sec hts,
      readUint_bind t.nsec htn, readUint_bind _ hpd,
      readCacheStr_bind_present tg htg.1 htg.2,
      readUint_bind (priorityNum pr) (priorityNum_lt pr), hopt,
      fromTimestampD_eq t ht, numPriority_priorityNum, rd_pure]
  | addValue n v =>
    obtain ⟨hn, hv⟩ := h
    simp [storeDoHandle, storeConv, storeDoHandleCached, CacheInstruction.idByte,
      fetchOne, fetchOneCached, syncByte, runPayload, loadConv, normInstr,
      List.cons_append, List.append_assoc,
      readCacheStr_bind_present n hn.1 hn.2, readValue_bind v hv,
      loadConvValue_norm v, rd_pure]

/-- Every instruction in the list is well-formed. -/
def wfSeq (S : List Instruction) : Prop := ∀ i ∈ S, wfInstr i

/-- The decode loop inverts a concatenated encoding, given enough
fuel. -/
theorem loadLoop_encode (S : List Instruction) (hS : wfSeq S) (fuel : Nat)
    (hf : (storeAll S).length + 1 ≤ fuel) (acc : List Instruction) :
    loadLoop fuel true (storeAll S) acc =
      Except.ok (acc.reverse ++ S.map normInstr) := by
  induction S generalizing fuel acc with
  | nil =>
    obtain ⟨f, rfl⟩ : ∃ f, fuel = f + 1 := ⟨fuel - 1, by omega⟩
    simp [storeAll, loadLoop, fetchOne, fetchOneCached, syncByte]
  | cons i S ih =>
    have hwf : wfInstr i := hS i (by simp)
    have hrest : wfSeq S := fun j hj => hS j (by simp [hj])
    have hsa : storeAll (i :: S) = storeDoHandle i ++ storeAll S := by
      simp [storeAll]
    rw [hsa] at hf ⊢
    have hlen : 1 ≤ (storeDoHandle i).length := by
      simp [storeDoHandle, storeDoHandleCached]
    rw [List.length_append] at hf
    obtain ⟨f, rfl⟩ : ∃ f, fuel = f + 1 := ⟨fuel - 1, by omega⟩
    simp only [loadLoop, fetchOne_encode i hwf (storeAll S)]
    rw [ih hrest f (by omega) (normInstr i :: acc)]
    simp

/-- Synchronization consumes the leading `Restart` byte. -/
theorem loadLoop_sync (fuel : Nat) (l : List Nat) (acc : List Instruction) :
    loadLoop fuel false (255 :: l) acc = loadLoop fuel true l acc := by
  cases fuel with
  | zero => rfl
  | succ f =>
    simp only [loadLoop]
    rw [show fetchOne false (255 :: l) = fetchOne true l from rfl]

/-- Store-then-load round trip: the leading `Restart` is consumed by the
decoder's synchronization and not re-emitted, and every subsequent
instruction comes back with its value normalized (`normInstr`). -/
theorem loadAll_storeAll (S : List Instruction) (hS : wfSeq S) :
    loadAll (storeAll (Instruction.restart :: S)) =
      Except.ok (S.map normInstr) := by
  have h1 : storeAll (Instruction.restart :: S) = 255 :: storeAll S := by
    simp [storeAll, storeDoHandle, storeConv, storeDoHandleCached,
      CacheInstruction.idByte]
  rw [loadAll, h1, List.length_cons, loadLoop_sync]
  have := loadLoop_encode S hS ((storeAll S).length + 1 + 1) (by omega) []
  simpa using this

instance {e a : Type} [DecidableEq e] [DecidableEq a] : DecidableEq (Except e a) :=
  fun x y =>
    match x, y with
    | .ok u, .ok v => decidable_of_iff (u = v) (by simp)
    | .error u, .error v => decidable_of_iff (u = v) (by simp)
    | .ok _, .error _ => isFalse (by simp)
    | .error _, .ok _ => isFalse (by simp)

/-! ## Claim C1 -/

/-- C1 counterexample: the claim `Load(Store(S)) = S` fails already at
`S = [Restart]`: the decoder's synchronization loop consumes the leading
`Restart` opcode and does not emit it, so the decoded stream is empty. -/
theorem c1_counterexample :
    loadAll (storeAll [Instruction.restart]) =
        (Except.ok [] : Except DErr (List Instruction)) ∧
      (Except.ok [] : Except DErr (List Instruction)) ≠
        Except.ok [Instruction.restart] := by
  constructor
  · decide
  · decide

/-- C1 (amended): for a well-formed instruction sequence beginning with
`Restart` (fields in their Rust-type ranges, no `Bool` values), encoding
with `Store::do_handle` and decoding with `Load::fetch_one` yields the
sequence again except that (a) the leading `Restart` is consumed by the
decoder's synchronization and not re-emitted, and (b) each `AddValue`
value is normalized: `Debug(s)` comes back as `String(s)`, a nonnegative
`Integer` of 128 or more comes back as `Unsigned`, and an `Unsigned`
below 128 comes back as `Integer`. -/
theorem c1_roundtrip_amended (S : List Instruction) (hS : wfSeq S) :
    loadAll (storeAll (Instruction.restart :: S)) =
      Except.ok (S.map normInstr) :=
  loadAll_storeAll S hS

/-- C1 witness: a concrete four-instruction tape round-trips (modulo
the consumed leading `Restart`), including a `StartEvent` at
`sec = 2 ^ 64 - 100` — a pre-1970 timestamp, negative under the signed
reading, inside chrono's representable range. -/
theorem c1_witness :
    loadAll (storeAll [Instruction.restart,
      Instruction.newSpan none 1 [97, 98, 99],
      Instruction.startEvent ⟨2 ^ 64 - 100, 0⟩ none [109] .info,
      Instruction.addValue [110] (Value.integer 5),
      Instruction.finishedSpan]) =
      Except.ok [Instruction.newSpan none 1 [97, 98, 99],
        Instruction.startEvent ⟨2 ^ 64 - 100, 0⟩ none [109] .info,
        Instruction.addValue [110] (Value.integer 5),
        Instruction.finishedSpan] := by
  have h := c1_roundtrip_amended
    [Instruction.newSpan none 1 [97, 98, 99],
      Instruction.startEvent ⟨2 ^ 64 - 100, 0⟩ none [109] .info,
      Instruction.addValue [110] (Value.integer 5),
      Instruction.finishedSpan]
    (by
      intro i hi
      simp only [List.mem_cons, List.not_mem_nil, or_false] at hi
      rcases hi with rfl | rfl | rfl | rfl
      · exact ⟨trivial, ⟨by omega, by omega⟩, by decide, by decide⟩
      · exact ⟨⟨by decide, by decide, by decide, by decide⟩, trivial,
          by decide, by decide⟩
      · exact ⟨⟨by decide, by decide⟩, by decide, by decide⟩
      · trivial)
  simpa [normInstr, normValue] using h

/-! ## Claim C5 -/

/-- C5: the encoder picks the fixext marker by the index range exactly
as specified (fixext1 up to 0xFFFF, fixext2 up to 0xFF_FFFF, fixext4 up
to 0xFF_FFFF_FFFF, fixext8 above), and converting an index to a
`CacheIndex` and back — both at the value level and through
`write`/`read` at the byte level — returns the same index. -/
theorem c5_cacheIndex (i : Nat) (h : i < 2 ^ 64) :
    ((CacheIndex.ofU64 i).markerByte = 0xd4 ↔ i ≤ 0xffff) ∧
    ((CacheIndex.ofU64 i).markerByte = 0xd5 ↔ 0x10000 ≤ i ∧ i ≤ 0xffffff) ∧
    ((CacheIndex.ofU64 i).markerByte = 0xd6 ↔ 0x1000000 ≤ i ∧ i ≤ 0xffffffffff) ∧
    ((CacheIndex.ofU64 i).markerByte = 0xd7 ↔ 0xffffffffff < i) ∧
    (CacheIndex.ofU64 i).toU64 = i ∧
    cacheIndexRead ((CacheIndex.ofU64 i).write) =
      (Except.ok (CacheIndex.ofU64 i), []) := by
  have hv := cacheIndex_toU64_ofU64 i h
  have hr := cacheIndexRead_write i []
  rw [List.append_nil] at hr
  have hmb : (CacheIndex.ofU64 i).markerByte =
      if i < 65536 then 0xd4 else if i < 16777216 then 0xd5
      else if i < 1099511627776 then 0xd6 else 0xd7 := by
    unfold CacheIndex.ofU64 CacheIndex.markerByte
    by_cases h1 : i < 65536
    · simp [h1]
    by_cases h2 : i < 16777216
    · simp [h1, h2]
    by_cases h3 : i < 1099511627776
    · simp [h1, h2, h3]
    · simp [h1, h2, h3]
  refine ⟨?_, ?_, ?_, ?_, hv, hr⟩ <;> rw [hmb] <;> split_ifs <;>
    constructor <;> intro hx <;> omega

/-- C5 witness at the fixext2 boundary index 70000. -/
theorem c5_witness :
    (70000 : Nat) < 2 ^ 64 ∧
      (CacheIndex.ofU64 70000).markerByte = 0xd5 ∧
      (CacheIndex.ofU64 70000).toU64 = 70000 := by
  have h := c5_cacheIndex 70000 (by decide)
  exact ⟨by decide, h.2.1.mpr (by decide), h.2.2.2.2.1⟩

/-! ## Claim C7 -/

/-- C7 counterexample: on the uncached write path, `Store::do_handle`
rewrites `Debug("hi")` to `String("hi")` before encoding: the emitted
bytes are identical to those of a `String` value (no 1-element-array
marker), and decoding yields `String`, not `Debug`. -/
theorem c7_counterexample :
    storeDoHandle (Instruction.addValue [110] (Value.debug [104, 105])) =
      storeDoHandle (Instruction.addValue [110] (Value.string [104, 105])) ∧
    loadAll (storeAll [Instruction.restart,
        Instruction.addValue [110] (Value.debug [104, 105])]) =
      Except.ok [Instruction.addValue [110] (Value.string [104, 105])] ∧
    (Except.ok [Instruction.addValue [110] (Value.string [104, 105])] :
        Except DErr (List Instruction)) ≠
      Except.ok [Instruction.addValue [110] (Value.debug [104, 105])] := by
  refine ⟨by decide, by decide, by decide⟩

/-- C7 (amended): on the *cached* write path a `Debug` value is encoded
as a 1-element MessagePack array (`0x91`) followed by the cache string,
and `do_read_value` decodes it back as `Debug` — the tag survives; on
the *uncached* path `Store::do_handle` rewrites `Debug(s)` to
`String(s)`, so the tag is dropped there and the value decodes back as
`String`. -/
theorem c7_debug_amended (n s : RStr) (hn : wfStr n) (hs : wfStr s) :
    writeCacheValue (Value.debug (CacheString.present s)) =
      0x91 :: writeCacheStr (CacheString.present s) ∧
    (∀ rest, readValue (writeCacheValue (Value.debug (CacheString.present s)) ++ rest) =
      (Except.ok (Value.debug (CacheString.present s)), rest)) ∧
    storeDoHandle (Instruction.addValue n (Value.debug s)) =
      storeDoHandle (Instruction.addValue n (Value.string s)) ∧
    loadAll (storeAll [Instruction.restart,
        Instruction.addValue n (Value.debug s)]) =
      Except.ok [Instruction.addValue n (Value.string s)] := by
  refine ⟨rfl, fun rest => readValue_debug (.present s) hs rest, rfl, ?_⟩
  have h := loadAll_storeAll [Instruction.addValue n (Value.debug s)]
    (by
      intro i hi
      simp only [List.mem_cons, List.not_mem_nil, or_false] at hi
      subst hi
      exact ⟨hn, hs⟩)
  simpa [normInstr, normValue] using h

/-- C7 witness at concrete strings. -/
theorem c7_witness :
    wfStr [110] ∧ wfStr [104, 105] ∧
      storeDoHandle (Instruction.addValue [110] (Value.debug [104, 105])) =
        storeDoHandle (Instruction.addValue [110] (Value.string [104, 105])) := by
  have h := c7_debug_amended [110] [104, 105] ⟨by decide, by decide⟩
    ⟨by decide, by decide⟩
  exact ⟨⟨by decide, by decide⟩, ⟨by decide, by decide⟩, h.2.2.1⟩

/-! ## StringCache / StringUncache (src/src/string_cache.rs)

This module is an earlier generic copy of the pipeline: its
`Instruction<S>` has a `NewString` variant in both views and its `Value`
has *no* `Debug` variant (`cache_value` / `uncache_value` match
exhaustively without one).  It is embedded separately from the storage
types above. -/

/-- `Value<'a, S>` as used by string_cache.rs (no `Debug`). -/
inductive SCValue (S : Type) where
  | string (s : S)
  | float (bits : Nat)
  | integer (v : Int)
  | unsigned (v : Nat)
  | bool (b : Bool)
  | byteArray (bs : List Nat)
deriving DecidableEq, Repr

/-- `Instruction<S>` as used by string_cache.rs: generic over the
string carrier, with `NewString` in both views. -/
inductive SCInstruction (S : Type) where
  | restart
  | newString (s : RStr)
  | newSpan (parent : Option Nat) (span : Nat) (name : S)
  | finishedSpan
  | newRecord (span : Nat)
  | finishedRecord
  | startEvent (time : Ts) (span : Option Nat) (target : S) (priority : Priority)
  | finishedEvent
  | addValue (name : S) (value : SCValue S)
  | deleteSpan (span : Nat)
deriving DecidableEq, Repr

/-- `HashMap<String, u64>` lookup. -/
def lookupId : List (RStr × Nat) → RStr → Option Nat
  | [], _ => none
  | (k, v) :: r, s => if k = s then some v else lookupId r s

/-- `HashMap::insert`: replace the value of an existing key, else
append. -/
def insertId : List (RStr × Nat) → RStr → Nat → List (RStr × Nat)
  | [], s, id => [(s, id)]
  | (k, v) :: r, s, id =>
    if k = s then (k, id) :: r else (k, v) :: insertId r s id

/-- The `matches!` pattern in `StringCache::cache_string` (and the
identical one in tape.rs `do_cache_string`): does the (index, length)
pair fall in a region that earns caching? -/
def matchesCacheRegion (id len : Nat) : Bool :=
  (decide (id ≤ 0xffff) && decide (4 ≤ len)) ||
  (decide (0x10000 ≤ id) && decide (id ≤ 0xffffff) && decide (5 ≤ len)) ||
  (decide (0x1000000 ≤ id) && decide (id ≤ 0xffffffffff) && decide (7 ≤ len)) ||
  decide (11 ≤ len)

/-- `small` in `cache_string`: the negation of the region match. -/
def smallString (id len : Nat) : Bool := !matchesCacheRegion id len

/-- `StringCache::cache_string`: returns the updated intern map, the
instructions forwarded downstream (a `NewString` when interning), and
the resulting cache string. -/
def cacheStringSC (st : List (RStr × Nat)) (s : RStr) :
    List (RStr × Nat) × List (SCInstruction CacheString) × CacheString :=
  match lookupId st s with
  | some id => (st, [], .cached id)
  | none =>
    let id := st.length
    if smallString id s.length then (st, [], .present s)
    else (insertId st s id, [.newString s], .cached id)

/-- `StringCache::cache_value`: only `String` values are interned. -/
def scCacheValue (st : List (RStr × Nat)) :
    SCValue RStr → List (RStr × Nat) × List (SCInstruction CacheString) × SCValue CacheString
  | .string s =>
    match cacheStringSC st s with
    | (st2, out, cs) => (st2, out, .string cs)
  | .float bits => (st, [], .float bits)
  | .integer v => (st, [], .integer v)
  | .unsigned v => (st, [], .unsigned v)
  | .bool b => (st, [], .bool b)
  | .byteArray bs => (st, [], .byteArray bs)

/-- `StringCache::handle`: the writer-side transducer step.  `Restart`
clears the intern map; `NewString` interns unconditionally and is
forwarded; strings in other instructions go through `cache_string`. -/
def scHandle (st : List (RStr × Nat)) (i : SCInstruction RStr) :
    List (RStr × Nat) × List (SCInstruction CacheString) :=
  match i with
  | .restart => ([], [.restart])
  | .newString s => (insertId st s st.length, [.newString s])
  | .newSpan p sp n =>
    match cacheStringSC st n with
    | (st2, out, cs) => (st2, out ++ [.newSpan p sp cs])
  | .finishedSpan => (st, [.finishedSpan])
  | .newRecord sp => (st, [.newRecord sp])
  | .finishedRecord => (st, [.finishedRecord])
  | .startEvent t sp tg pr =>
    match cacheStringSC st tg with
    | (st2, out, cs) => (st2, out ++ [.startEvent t sp cs pr])
  | .finishedEvent => (st, [.finishedEvent])
  | .addValue n v =>
    match cacheStringSC st n with
    | (st2, out1, ncs) =>
      match scCacheValue st2 v with
      | (st3, out2, v2) => (st3, out1 ++ out2 ++ [.addValue ncs v2])
  | .deleteSpan sp => (st, [.deleteSpan sp])

/-- `StringUncache::uncache`: resolve a cache string against the
accumulated table; an out-of-range index is a Rust index panic
(`none`). -/
def uncacheStr (tbl : List RStr) : CacheString → Option RStr
  | .present s => some s
  | .cached i => tbl.get? i

/-- `StringUncache::uncache_value`. -/
def uncacheValSC (tbl : List RStr) : SCValue CacheString → Option (SCValue RStr)
  | .string s => (uncacheStr tbl s).map .string
  | .float bits => some (.float bits)
  | .integer v => some (.integer v)
  | .unsigned v => some (.unsigned v)
  | .bool b => some (.bool b)
  | .byteArray bs => some (.byteArray bs)

/-- `StringUncache::handle`: `NewString` is absorbed into the table and
not forwarded; `Restart` is forwarded without clearing the table; every
other instruction is forwarded with its cache strings resolved. -/
def suHandle (tbl : List RStr) (i : SCInstruction CacheString) :
    Option (List RStr × List (SCInstruction RStr)) :=
  match i with
  | .restart => some (tbl, [.restart])
  | .newString s => some (tbl ++ [s], [])
  | .newSpan p sp n => (uncacheStr tbl n).map fun s => (tbl, [.newSpan p sp s])
  | .finishedSpan => some (tbl, [.finishedSpan])
  | .newRecord sp => some (tbl, [.newRecord sp])
  | .finishedRecord => some (tbl, [.finishedRecord])
  | .startEvent t sp tg pr =>
    (uncacheStr tbl tg).map fun s => (tbl, [.startEvent t sp s pr])
  | .finishedEvent => some (tbl, [.finishedEvent])
  | .addValue n v =>
    match uncacheStr tbl n, uncacheValSC tbl v with
    | some n2, some v2 => some (tbl, [.addValue n2 v2])
    | _, _ => none
  | .deleteSpan sp => some (tbl, [.deleteSpan sp])

/-- Run `StringUncache::handle` over a list of instructions, threading
the table and concatenating the forwarded output. -/
def suHandleAll (tbl : List RStr) :
    List (SCInstruction CacheString) → Option (List RStr × List (SCInstruction RStr))
  | [] => some (tbl, [])
  | i :: is =>
    match suHandle tbl i with
    | none => none
    | some (tbl2, o1) =>
      match suHandleAll tbl2 is with
      | none => none
      | some (tbl3, o2) => some (tbl3, o1 ++ o2)

/-- The writer chain `StringUncache ∘ StringCache` run over an uncached
instruction sequence, threading both states. -/
def chainSC (m : List (RStr × Nat)) (tbl : List RStr) :
    List (SCInstruction RStr) →
      Option (List (RStr × Nat) × List RStr × List (SCInstruction RStr))
  | [] => some (m, tbl, [])
  | u :: U =>
    match scHandle m u with
    | (m2, out) =>
      match suHandleAll tbl out with
      | none => none
      | some (tbl2, fwd) =>
        match chainSC m2 tbl2 U with
        | none => none
        | some (m3, tbl3, rest) => some (m3, tbl3, fwd ++ rest)

/-- The cache/uncache simulation invariant: the intern map and the
reader table have the same size, and every interned (string, index)
pair resolves through the table. -/
def scInv (m : List (RStr × Nat)) (tbl : List RStr) : Prop :=
  m.length = tbl.length ∧ ∀ s id, lookupId m s = some id → tbl.get? id = some s

theorem insertId_absent {m : List (RStr × Nat)} {s : RStr} (h : lookupId m s = none)
    (id : Nat) : insertId m s id = m ++ [(s, id)] := by
  induction m with
  | nil => rfl
  | cons kv r ih =>
    obtain ⟨k, v⟩ := kv
    by_cases hk : k = s
    · simp [lookupId, hk] at h
    · simp [lookupId, hk] at h
      simp [insertId, hk, ih h]

theorem lookupId_append_elim {m : List (RStr × Nat)} {s t : RStr} {id0 id : Nat}
    (h : lookupId (m ++ [(s, id0)]) t = some id) :
    lookupId m t = some id ∨ (t = s ∧ id = id0 ∧ lookupId m t = none) := by
  induction m with
  | nil =>
    simp [lookupId] at h
    rcases h with ⟨h1, h2⟩
    exact Or.inr ⟨h1.symm, h2.symm, rfl⟩
  | cons kv r ih =>
    obtain ⟨k, v⟩ := kv
    by_cases hk : k = t
    · left
      simp only [List.cons_append, lookupId, if_pos hk] at h ⊢
      exact h
    · simp only [List.cons_append, lookupId, if_neg hk] at h ⊢
      rcases ih h with ho | ⟨h1, h2, h3⟩
      · exact Or.inl ho
      · exact Or.inr ⟨h1, h2, h3⟩

theorem scInv_extend {m : List (RStr × Nat)} {tbl : List RStr} {s : RStr}
    (h : scInv m tbl) (habs : lookupId m s = none) :
    scInv (m ++ [(s, m.length)]) (tbl ++ [s]) := by
  obtain ⟨hlen, hres⟩ := h
  constructor
  · simp [hlen]
  · intro t id hl
    rcases lookupId_append_elim hl with hold | ⟨rfl, rfl, _⟩
    · have := hres t id hold
      have hb : id < tbl.length := by
        by_contra hb
        rw [List.get?_eq_none.mpr (by omega)] at this
        exact Option.noConfusion this
      rw [List.get?_append hb]
      exact this
    · rw [hlen, List.get?_concat_length]

theorem uncacheStr_mono {tbl ext : List RStr} {cs : CacheString} {s : RStr}
    (h : uncacheStr tbl cs = some s) : uncacheStr (tbl ++ ext) cs = some s := by
  cases cs with
  | present t => simpa [uncacheStr] using h
  | cached i =>
    simp only [uncacheStr] at h ⊢
    have hb : i < tbl.length := by
      by_contra hb
      rw [List.get?_eq_none.mpr (by omega)] at h
      exact Option.noConfusion h
    rw [List.get?_append hb]
    exact h

theorem cacheStringSC_spec {m : List (RStr × Nat)} (tbl : List RStr) {s : RStr}
    {m2 : List (RStr × Nat)} {out : List (SCInstruction CacheString)}
    {cs : CacheString} (h : scInv m tbl)
    (hc : cacheStringSC m s = (m2, out, cs)) :
    ∃ tbl2, suHandleAll tbl out = some (tbl2, []) ∧ scInv m2 tbl2 ∧
      uncacheStr tbl2 cs = some s ∧ ∃ ext, tbl2 = tbl ++ ext := by
  unfold cacheStringSC at hc
  cases hl : lookupId m s with
  | some id =>
    rw [hl] at hc
    obtain ⟨rfl, rfl, rfl⟩ : m = m2 ∧ [] = out ∧ CacheString.cached id = cs := by
      simpa using hc
    exact ⟨tbl, by simp [suHandleAll], h, h.2 s id hl, [], by simp⟩
  | none =>
    rw [hl] at hc
    by_cases hsm : smallString m.length s.length = true
    · rw [if_pos hsm] at hc
      obtain ⟨rfl, rfl, rfl⟩ : m = m2 ∧ [] = out ∧ CacheString.present s = cs := by
        simpa using hc
      exact ⟨tbl, by simp [suHandleAll], h, by simp [uncacheStr], [], by simp⟩
    · rw [if_neg hsm] at hc
      obtain ⟨rfl, rfl, rfl⟩ : insertId m s m.length = m2 ∧
          [SCInstruction.newString s] = out ∧ CacheString.cached m.length = cs := by
        simpa using hc
      rw [insertId_absent hl]
      refine ⟨tbl ++ [s], ?_, scInv_extend h hl, ?_, [s], rfl⟩
      · simp [suHandleAll, suHandle]
      · simp [uncacheStr, h.1, List.get?_concat_length]

theorem scCacheValue_spec {m : List (RStr × Nat)} (tbl : List RStr)
    {v : SCValue RStr} {m2 : List (RStr × Nat)}
    {out : List (SCInstruction CacheString)} {v2 : SCValue CacheString}
    (h : scInv m tbl) (hc : scCacheValue m v = (m2, out, v2)) :
    ∃ tbl2, suHandleAll tbl out = some (tbl2, []) ∧ scInv m2 tbl2 ∧
      uncacheValSC tbl2 v2 = some v ∧ ∃ ext, tbl2 = tbl ++ ext := by
  cases v with
  | string s =>
    simp only [scCacheValue] at hc
    rcases hcs : cacheStringSC m s with ⟨m3, out3, cs3⟩
    rw [hcs] at hc
    obtain ⟨rfl, rfl, rfl⟩ : m3 = m2 ∧ out3 = out ∧ SCValue.string cs3 = v2 := by
      simpa using hc
    obtain ⟨tbl2, h1, h2, h3, h4⟩ := cacheStringSC_spec tbl h hcs
    exact ⟨tbl2, h1, h2, by simp [uncacheValSC, h3], h4⟩
  | float bits =>
    obtain ⟨rfl, rfl, rfl⟩ : m = m2 ∧ [] = out ∧ SCValue.float bits = v2 := by
      simpa [scCacheValue] using hc
    exact ⟨tbl, by simp [suHandleAll], h, by simp [uncacheValSC], [], by simp⟩
  | integer n =>
    obtain ⟨rfl, rfl, rfl⟩ : m = m2 ∧ [] = out ∧ SCValue.integer n = v2 := by
      simpa [scCacheValue] using hc
    exact ⟨tbl, by simp [suHandleAll], h, by simp [uncacheValSC], [], by simp⟩
  | unsigned n =>
    obtain ⟨rfl, rfl, rfl⟩ : m = m2 ∧ [] = out ∧ SCValue.unsigned n = v2 := by
      simpa [scCacheValue] using hc
    exact ⟨tbl, by simp [suHandleAll], h, by simp [uncacheValSC], [], by simp⟩
  | bool b =>
    obtain ⟨rfl, rfl, rfl⟩ : m = m2 ∧ [] = out ∧ SCValue.bool b = v2 := by
      simpa [scCacheValue] using hc
    exact ⟨tbl, by simp [suHandleAll], h, by simp [uncacheValSC], [], by simp⟩
  | byteArray bs =>
    obtain ⟨rfl, rfl, rfl⟩ : m = m2 ∧ [] = out ∧ SCValue.byteArray bs = v2 := by
      simpa [scCacheValue] using hc
    exact ⟨tbl, by simp [suHandleAll], h, by simp [uncacheValSC], [], by simp⟩

theorem suHandleAll_append (tbl : List RStr) (l1 l2 : List (SCInstruction CacheString)) :
    suHandleAll tbl (l1 ++ l2) =
      match suHandleAll tbl l1 with
      | none => none
      | some (t2, o1) =>
        match suHandleAll t2 l2 with
        | none => none
        | some (t3, o2) => some (t3, o1 ++ o2) := by
  induction l1 generalizing tbl with
  | nil =>
    simp only [List.nil_append, suHandleAll]
    cases h2 : suHandleAll tbl l2 with
    | none => rfl
    | some q =>
      obtain ⟨t3, o2⟩ := q
      simp
  | cons i is ih =>
    simp only [List.cons_append, suHandleAll]
    cases hh : suHandle tbl i with
    | none => rfl
    | some p =>
      obtain ⟨tbl2, o1⟩ := p
      simp only [List.append_eq]
      rw [ih tbl2]
      cases h2 : suHandleAll tbl2 is with
      | none => rfl
      | some q =>
        obtain ⟨t3, o2⟩ := q
        simp only []
        cases h3 : suHandleAll t3 l2 with
        | none => rfl
        | some r =>
          obtain ⟨t4, o3⟩ := r
          simp

/-- Instructions without cache side effects on the writer state: not
`Restart` (which clears the intern map) and not `NewString` (which is
absorbed by the uncache). -/
def scPlain : SCInstruction RStr → Prop
  | .restart => False
  | .newString _ => False
  | _ => True

/-- One plain instruction passes through `StringUncache ∘ StringCache`
unchanged, preserving the invariant. -/
theorem scStep_spec (m : List (RStr × Nat)) (tbl : List RStr)
    (u : SCInstruction RStr) (h : scInv m tbl) (hu : scPlain u) :
    ∃ tbl2, suHandleAll tbl (scHandle m u).2 = some (tbl2, [u]) ∧
      scInv (scHandle m u).1 tbl2 := by
  cases u with
  | restart => exact absurd hu (by simp [scPlain])
  | newString s => exact absurd hu (by simp [scPlain])
  | finishedSpan => exact ⟨tbl, by simp [scHandle, suHandleAll, suHandle], h⟩
  | newRecord sp => exact ⟨tbl, by simp [scHandle, suHandleAll, suHandle], h⟩
  | finishedRecord => exact ⟨tbl, by simp [scHandle, suHandleAll, suHandle], h⟩
  | finishedEvent => exact ⟨tbl, by simp [scHandle, suHandleAll, suHandle], h⟩
  | deleteSpan sp => exact ⟨tbl, by simp [scHandle, suHandleAll, suHandle], h⟩
  | newSpan p sp n =>
    rcases hc : cacheStringSC m n with ⟨m2, out, cs⟩
    obtain ⟨tbl2, h1, h2, h3, h4⟩ := cacheStringSC_spec tbl h hc
    refine ⟨tbl2, ?_, by simpa [scHandle, hc] using h2⟩
    simp only [scHandle, hc]
    rw [suHandleAll_append, h1]
    simp [suHandleAll, suHandle, h3]
  | startEvent t sp tg pr =>
    rcases hc : cacheStringSC m tg with ⟨m2, out, cs⟩
    obtain ⟨tbl2, h1, h2, h3, h4⟩ := cacheStringSC_spec tbl h hc
    refine ⟨tbl2, ?_, by simpa [scHandle, hc] using h2⟩
    simp only [scHandle, hc]
    rw [suHandleAll_append, h1]
    simp [suHandleAll, suHandle, h3]
  | addValue n v =>
    rcases hc : cacheStringSC m n with ⟨m2, out1, ncs⟩
    obtain ⟨tbl2, h1, h2, h3, h4⟩ := cacheStringSC_spec tbl h hc
    rcases hv : scCacheValue m2 v with ⟨m3, out2, v2⟩
    obtain ⟨tbl3, h5, h6, h7, ext, rfl⟩ := scCacheValue_spec tbl2 h2 hv
    refine ⟨tbl2 ++ ext, ?_, by simpa [scHandle, hc, hv] using h6⟩
    simp only [scHandle, hc, hv]
    rw [List.append_assoc, suHandleAll_append, h1]
    simp only []
    rw [suHandleAll_append, h5]
    have h3b : uncacheStr (tbl2 ++ ext) ncs = some n := uncacheStr_mono h3
    simp [suHandleAll, suHandle, h3b, h7]

/-- The composed chain reproduces a plain instruction stream exactly,
from any invariant-related state pair. -/
theorem chainSC_id (U : List (SCInstruction RStr)) (hU : ∀ u ∈ U, scPlain u)
    (m : List (RStr × Nat)) (tbl : List RStr) (h : scInv m tbl) :
    ∃ m2 tbl2, chainSC m tbl U = some (m2, tbl2, U) := by
  induction U generalizing m tbl with
  | nil => exact ⟨m, tbl, rfl⟩
  | cons u U ih =>
    obtain ⟨tbl2, h1, h2⟩ := scStep_spec m tbl u h (hU u (by simp))
    rcases hs : scHandle m u with ⟨m2, out⟩
    rw [hs] at h1 h2
    obtain ⟨m3, tbl3, h3⟩ := ih (fun v hv => hU v (by simp [hv])) m2 tbl2 h2
    refine ⟨m3, tbl3, ?_⟩
    simp only [chainSC, hs, h1, h3]
    simp

/-! ## Claim C2 -/

/-- C2 counterexample: with a `Restart` inside the sequence the chain is
not the identity.  The first long string is interned at index 0; the
`Restart` clears the writer's intern map but not the reader's table, so
the second long string is again announced as index 0, which the reader
resolves to the *first* string. -/
theorem c2_counterexample :
    chainSC [] []
      [SCInstruction.newSpan none 1 (List.replicate 11 97),
        SCInstruction.restart,
        SCInstruction.newSpan none 2 (List.replicate 11 98)] =
      some ([(List.replicate 11 98, 0)],
        [List.replicate 11 97, List.replicate 11 98],
        [SCInstruction.newSpan none 1 (List.replicate 11 97),
          SCInstruction.restart,
          SCInstruction.newSpan none 2 (List.replicate 11 97)]) ∧
    [SCInstruction.newSpan (S := RStr) none 1 (List.replicate 11 97),
        SCInstruction.restart,
        SCInstruction.newSpan none 2 (List.replicate 11 97)] ≠
      [SCInstruction.newSpan none 1 (List.replicate 11 97),
        SCInstruction.restart,
        SCInstruction.newSpan none 2 (List.replicate 11 98)] := by
  constructor
  · decide
  · decide

/-- C2 (amended): for a sequence of uncached instructions containing
neither `Restart` nor `NewString` (the uncached view never carries
`NewString`, per the data model), feeding it through `StringCache` and
then `StringUncache` reproduces the sequence exactly: every instruction
is forwarded with identical fields, every `Cached(i)` is resolved back
to the original literal, and the `NewString` instructions the cache
introduces are absorbed. -/
theorem c2_cache_transparency (U : List (SCInstruction RStr))
    (hU : ∀ u ∈ U, scPlain u) :
    ∃ m2 tbl2, chainSC [] [] U = some (m2, tbl2, U) :=
  chainSC_id U hU [] [] ⟨rfl, by intro s id h; exact absurd h (by simp [lookupId])⟩

/-- C2 witness: a concrete sequence with a cached 11-byte target string
used twice. -/
theorem c2_witness :
    ∃ m2 tbl2, chainSC [] []
      [SCInstruction.startEvent ⟨0, 0⟩ none (List.replicate 11 97) Priority.info,
        SCInstruction.finishedEvent,
        SCInstruction.startEvent ⟨1, 0⟩ none (List.replicate 11 97) Priority.warn,
        SCInstruction.finishedEvent] =
      some (m2, tbl2,
        [SCInstruction.startEvent ⟨0, 0⟩ none (List.replicate 11 97) Priority.info,
          SCInstruction.finishedEvent,
          SCInstruction.startEvent ⟨1, 0⟩ none (List.replicate 11 97) Priority.warn,
          SCInstruction.finishedEvent]) := by
  apply c2_cache_transparency
  intro u hu
  simp only [List.mem_cons, List.not_mem_nil, or_false] at hu
  rcases hu with rfl | rfl | rfl | rfl <;> trivial

/-! ## Claim C3 -/

/-- The claim's literal reading of the smallness condition: the plain
disjunction of the four spec regions (stated from the spec text, to be
compared with the code's `smallString`). -/
def claimSmall (i L : Nat) : Prop :=
  (i ≤ 0xffff ∧ L < 4) ∨ (0x10000 ≤ i ∧ i ≤ 0xffffff ∧ L < 5) ∨
    (0x1000000 ≤ i ∧ i ≤ 0xffffffffff ∧ L < 7) ∨ L < 11

instance (i L : Nat) : Decidable (claimSmall i L) := by
  unfold claimSmall
  infer_instance

/-- C3 counterexample: at candidate index 0 a 6-byte string satisfies
the claim's disjunction (`L < 11` holds), so the claim says it is
emitted as a literal without caching — but the code caches it
(`(0..=0xffff, 4..)` matches, so `small` is false): `cache_string`
forwards `NewString` and returns `Cached(0)`. -/
theorem c3_counterexample :
    claimSmall 0 6 ∧
      cacheStringSC [] [97, 98, 99, 100, 101, 102] =
        ([([97, 98, 99, 100, 101, 102], 0)],
          [SCInstruction.newString [97, 98, 99, 100, 101, 102]],
          CacheString.cached 0) := by
  constructor
  · decide
  · decide

/-- C3 (amended): for a not-yet-interned string, the code emits a
literal exactly when the pair (index, length) is small under the
*partitioned* regions — the `L < 11` region applies only to indices
above 0xFF_FFFF_FFFF; otherwise it forwards `NewString`, records the
index `i = map size`, and a subsequent lookup of the string yields
`Cached(i)` with no new emission. -/
theorem c3_interning_policy (st : List (RStr × Nat)) (s : RStr)
    (habs : lookupId st s = none) :
    (smallString st.length s.length = true ↔
      ((st.length ≤ 0xffff ∧ s.length < 4) ∨
        (0x10000 ≤ st.length ∧ st.length ≤ 0xffffff ∧ s.length < 5) ∨
        (0x1000000 ≤ st.length ∧ st.length ≤ 0xffffffffff ∧ s.length < 7) ∨
        (0xffffffffff < st.length ∧ s.length < 11))) ∧
    (smallString st.length s.length = true →
      cacheStringSC st s = (st, [], .present s)) ∧
    (smallString st.length s.length = false →
      cacheStringSC st s =
        (st ++ [(s, st.length)], [.newString s], .cached st.length)) ∧
    (∀ st2, lookupId st2 s = some st.length →
      cacheStringSC st2 s = (st2, [], .cached st.length)) := by
  refine ⟨?_, ?_, ?_, ?_⟩
  · unfold smallString matchesCacheRegion
    simp only [Bool.not_eq_true', Bool.or_eq_false_iff, Bool.and_eq_false_iff,
      decide_eq_false_iff_not, not_le]
    omega
  · intro hsm
    unfold cacheStringSC
    rw [habs]
    simp [hsm]
  · intro hsm
    unfold cacheStringSC
    rw [habs]
    simp only [hsm]
    rw [if_neg (by simp [hsm]), insertId_absent habs]
  · intro st2 hl
    unfold cacheStringSC
    rw [hl]

/-- C3 witness: an 11-byte string at index 0 is interned; afterwards the
same string yields `Cached(0)`. -/
theorem c3_witness :
    lookupId [] (List.replicate 11 97) = none ∧
      (smallString 0 11 = false →
        cacheStringSC [] (List.replicate 11 97) =
          ([(List.replicate 11 97, 0)], [.newString (List.replicate 11 97)],
            .cached 0)) := by
  have h := c3_interning_policy [] (List.replicate 11 97) (by decide)
  refine ⟨by decide, fun hf => by simpa using h.2.2.1 (by decide)⟩

/-! ## Claim C9 -/

/-- C9: frame conditions of the two string machines.
`StringUncache::handle` changes its accumulated `strings` table only on
`NewString` (which appends exactly one entry and forwards nothing);
`Restart` is forwarded without clearing it; `Cached(i)` always resolves
against the table accumulated over *all* previous segments.  By
contrast, `StringCache::handle` clears its intern map on `Restart` and
then assigns indices from 0 again. -/
theorem c9_frame_conditions (tbl : List RStr) :
    (∀ i : SCInstruction CacheString, (∀ s, i ≠ .newString s) →
      ∀ tbl2 out, suHandle tbl i = some (tbl2, out) → tbl2 = tbl) ∧
    (∀ s, suHandle tbl (.newString s) = some (tbl ++ [s], [])) ∧
    suHandle tbl .restart = some (tbl, [.restart]) ∧
    (∀ m, scHandle m .restart = ([], [.restart])) ∧
    (∀ i, uncacheStr tbl (.cached i) = tbl.get? i) ∧
    (∀ s : RStr, smallString 0 s.length = false →
      cacheStringSC [] s = ([(s, 0)], [.newString s], .cached 0)) := by
  refine ⟨?_, fun s => rfl, rfl, fun m => rfl, fun i => rfl, ?_⟩
  · intro i hne tbl2 out hr
    cases i with
    | restart =>
      simp [suHandle] at hr
      exact hr.1.symm
    | newString s => exact absurd rfl (hne s)
    | newSpan p sp n =>
      simp only [suHandle, Option.map_eq_some'] at hr
      obtain ⟨s, _, h2⟩ := hr
      simpa using (congrArg Prod.fst h2).symm
    | finishedSpan =>
      simp [suHandle] at hr
      exact hr.1.symm
    | newRecord sp =>
      simp [suHandle] at hr
      exact hr.1.symm
    | finishedRecord =>
      simp [suHandle] at hr
      exact hr.1.symm
    | startEvent t sp tg pr =>
      simp only [suHandle, Option.map_eq_some'] at hr
      obtain ⟨s, _, h2⟩ := hr
      simpa using (congrArg Prod.fst h2).symm
    | finishedEvent =>
      simp [suHandle] at hr
      exact hr.1.symm
    | addValue n v =>
      simp only [suHandle] at hr
      cases h1 : uncacheStr tbl n with
      | none =>
        rw [h1] at hr
        exact absurd hr (by simp)
      | some n2 =>
        rw [h1] at hr
        cases h2 : uncacheValSC tbl v with
        | none =>
          rw [h2] at hr
          exact absurd hr (by simp)
        | some v2 =>
          rw [h2] at hr
          simp at hr
          exact hr.1.symm
    | deleteSpan sp =>
      simp [suHandle] at hr
      exact hr.1.symm
  · intro s hsm
    unfold cacheStringSC
    simp only [lookupId, List.length_nil, hsm]
    rw [if_neg (by simp [hsm])]
    rfl

/-- C9 witness: the frame condition applied at a concrete table and a
concrete non-`NewString` instruction. -/
theorem c9_witness : ([[98]] : List RStr) = [[98]] :=
  (c9_frame_conditions [[98]]).1 SCInstruction.finishedSpan (fun s => by simp)
    [[98]] [SCInstruction.finishedSpan] (by decide)

/-! ## RestartableMachine (src/src/restart.rs) -/

/-- `SpanRecords` (the current tape.rs copy as used by restart.rs):
parent, name, and the accumulated field values in insertion order. -/
structure SpanRecords where
  parent : Option Nat
  name : RStr
  records : List (RStr × Value RStr)
deriving DecidableEq, Repr

/-- `HashMap<NonZeroU64, SpanRecords>` helpers, as association lists
(iteration order is the list order; the Rust iteration order is
unspecified). -/
def lookupSpan : List (Nat × SpanRecords) → Nat → Option SpanRecords
  | [], _ => none
  | (k, v) :: r, sp => if k = sp then some v else lookupSpan r sp

/-- `HashMap::insert`: replace or append. -/
def insertSpan : List (Nat × SpanRecords) → Nat → SpanRecords → List (Nat × SpanRecords)
  | [], sp, v => [(sp, v)]
  | (k, w) :: r, sp, v =>
    if k = sp then (k, v) :: r else (k, w) :: insertSpan r sp v

/-- `HashMap::remove` / the removal part of `remove_entry`. -/
def removeSpan : List (Nat × SpanRecords) → Nat → List (Nat × SpanRecords)
  | [], _ => []
  | (k, w) :: r, sp => if k = sp then r else (k, w) :: removeSpan r sp

/-- `HashMap::remove_entry`: the removed entry and the remaining map. -/
def removeEntry : List (Nat × SpanRecords) → Nat →
    Option ((Nat × SpanRecords) × List (Nat × SpanRecords))
  | [], _ => none
  | (k, w) :: r, sp =>
    if k = sp then some ((k, w), r)
    else (removeEntry r sp).map fun e => (e.1, (k, w) :: e.2)

/-- `RestartableMachine` state. -/
structure RMState where
  span : List (Nat × SpanRecords)
  currentSpan : Option (Nat × SpanRecords)
deriving DecidableEq, Repr

/-- The replay loop in the `Restart` arm: for every live entry, forward
`NewSpan`, one `AddValue` per record, `FinishedSpan` — accumulated in
the order the forward calls happen. -/
def rmReplay (live : List (Nat × SpanRecords)) : List Instruction :=
  live.foldl
    (fun acc e =>
      acc ++ [Instruction.newSpan e.2.parent e.1 e.2.name] ++
        e.2.records.foldl (fun a2 p => a2 ++ [Instruction.addValue p.1 p.2]) [] ++
        [Instruction.finishedSpan])
    []

/-- `RestartableMachine::handle`: `none` models a Rust panic
(`assert!` failure or `unwrap` on `None`). -/
def rmHandle (st : RMState) (i : Instruction) : Option (RMState × List Instruction) :=
  match i with
  | .restart => some (st, Instruction.restart :: rmReplay st.span)
  | .newSpan p sp n =>
    match st.currentSpan with
    | some _ => none
    | none =>
      some ({ span := st.span, currentSpan := some (sp, ⟨p, n, []⟩) },
        [.newSpan p sp n])
  | .finishedSpan =>
    match st.currentSpan with
    | none => none
    | some (k, v) =>
      some ({ span := insertSpan st.span k v, currentSpan := none }, [.finishedSpan])
  | .newRecord sp =>
    match st.currentSpan with
    | some _ => none
    | none =>
      match removeEntry st.span sp with
      | none => none
      | some (e, rest) =>
        some ({ span := rest, currentSpan := some e }, [.newRecord sp])
  | .finishedRecord =>
    match st.currentSpan with
    | none => none
    | some (k, v) =>
      some ({ span := insertSpan st.span k v, currentSpan := none },
        [.finishedRecord])
  | .startEvent t sp tg pr => some (st, [.startEvent t sp tg pr])
  | .finishedEvent => some (st, [.finishedEvent])
  | .addValue n v =>
    some ({ span := st.span,
            currentSpan := st.currentSpan.map fun e =>
              (e.1, ⟨e.2.parent, e.2.name, e.2.records ++ [(n, v)]⟩) },
      [.addValue n v])
  | .deleteSpan sp =>
    some ({ span := removeSpan st.span sp, currentSpan := st.currentSpan },
      [.deleteSpan sp])

theorem recordsFold_eq (records : List (RStr × Value RStr))
    (a : List Instruction) :
    records.foldl (fun a2 p => a2 ++ [Instruction.addValue p.1 p.2]) a =
      a ++ records.map fun p => Instruction.addValue p.1 p.2 := by
  induction records generalizing a with
  | nil => simp
  | cons p ps ih => simp [List.foldl_cons, ih]

theorem rmReplay_go (live : List (Nat × SpanRecords)) (a : List Instruction) :
    live.foldl
      (fun acc e =>
        acc ++ [Instruction.newSpan e.2.parent e.1 e.2.name] ++
          e.2.records.foldl (fun a2 p => a2 ++ [Instruction.addValue p.1 p.2]) [] ++
          [Instruction.finishedSpan]) a =
      a ++ (live.map fun e =>
        Instruction.newSpan e.2.parent e.1 e.2.name ::
          ((e.2.records.map fun p => Instruction.addValue p.1 p.2) ++
            [Instruction.finishedSpan])).flatten := by
  induction live generalizing a with
  | nil => simp
  | cons e es ih =>
    rw [List.foldl_cons, ih, recordsFold_eq]
    simp

/-- The replay output is one `NewSpan`/`AddValue*`/`FinishedSpan` batch
per live entry, in table order. -/
theorem rmReplay_eq (live : List (Nat × SpanRecords)) :
    rmReplay live = (live.map fun e =>
      Instruction.newSpan e.2.parent e.1 e.2.name ::
        ((e.2.records.map fun p => Instruction.addValue p.1 p.2) ++
          [Instruction.finishedSpan])).flatten := by
  unfold rmReplay
  rw [rmReplay_go]
  simp

/-! ## Claim C4 -/

/-- C4: handling `Restart` forwards `Restart` first, then — before any
subsequent instruction — one batch per `(span, records)` entry of the
live map, each batch being `NewSpan{parent: records.parent, span,
name: records.name}`, one `AddValue` per stored record in insertion
order, and `FinishedSpan`; the machine state (the live map and the
in-progress span) is exactly the same afterwards. -/
theorem c4_restart_replay (st : RMState) :
    rmHandle st Instruction.restart =
      some (st, Instruction.restart ::
        (st.span.map fun e =>
          Instruction.newSpan e.2.parent e.1 e.2.name ::
            ((e.2.records.map fun p => Instruction.addValue p.1 p.2) ++
              [Instruction.finishedSpan])).flatten) := by
  unfold rmHandle
  rw [rmReplay_eq]

/-! ## Claim C10 -/

/-- Keys of the live map after an insert (replace-or-append). -/
def insertKeyN : List Nat → Nat → List Nat
  | [], sp => [sp]
  | k :: r, sp => if k = sp then k :: r else k :: insertKeyN r sp

/-- Keys of the live map after a removal. -/
def removeKeyN : List Nat → Nat → List Nat
  | [], _ => []
  | k :: r, sp => if k = sp then r else k :: removeKeyN r sp

/-- The stream validity checker the claim describes: balanced
open/close pairing (at most one construction open, every `Finished*`
closing one) where each `NewRecord` names a currently live span.
`cur` is the span under construction, `live` the live key list. -/
def absStep : Option Nat × List Nat → Instruction → Option (Option Nat × List Nat)
  | (cur, live), .restart => some (cur, live)
  | (cur, live), .newSpan _ sp _ =>
    match cur with
    | none => some (some sp, live)
    | some _ => none
  | (cur, live), .finishedSpan =>
    match cur with
    | none => none
    | some k => some (none, insertKeyN live k)
  | (cur, live), .newRecord sp =>
    match cur with
    | some _ => none
    | none => if sp ∈ live then some (some sp, removeKeyN live sp) else none
  | (cur, live), .finishedRecord =>
    match cur with
    | none => none
    | some k => some (none, insertKeyN live k)
  | (cur, live), .startEvent _ _ _ _ => some (cur, live)
  | (cur, live), .finishedEvent => some (cur, live)
  | (cur, live), .addValue _ _ => some (cur, live)
  | (cur, live), .deleteSpan sp => some (cur, removeKeyN live sp)

/-- Run the validity checker over a stream. -/
def absRun (a : Option Nat × List Nat) : List Instruction → Option (Option Nat × List Nat)
  | [] => some a
  | i :: S =>
    match absStep a i with
    | none => none
    | some a2 => absRun a2 S

/-- Run the restartable machine over a stream, `none` on the first
panic. -/
def rmRun (st : RMState) : List Instruction → Option RMState
  | [] => some st
  | i :: S =>
    match rmHandle st i with
    | none => none
    | some (st2, _) => rmRun st2 S

/-- The simulation relation between checker state and machine state. -/
def rmAbs (a : Option Nat × List Nat) (st : RMState) : Prop :=
  a.1 = st.currentSpan.map Prod.fst ∧ a.2 = st.span.map Prod.fst

theorem insertSpan_keys (m : List (Nat × SpanRecords)) (k : Nat) (v : SpanRecords) :
    (insertSpan m k v).map Prod.fst = insertKeyN (m.map Prod.fst) k := by
  induction m with
  | nil => rfl
  | cons e r ih =>
    obtain ⟨k2, w⟩ := e
    by_cases hk : k2 = k
    · simp [insertSpan, insertKeyN, hk]
    · simp [insertSpan, insertKeyN, hk, ih]

theorem removeSpan_keys (m : List (Nat × SpanRecords)) (sp : Nat) :
    (removeSpan m sp).map Prod.fst = removeKeyN (m.map Prod.fst) sp := by
  induction m with
  | nil => rfl
  | cons e r ih =>
    obtain ⟨k2, w⟩ := e
    by_cases hk : k2 = sp
    · simp [removeSpan, removeKeyN, hk]
    · simp [removeSpan, removeKeyN, hk, ih]

theorem removeEntry_mem (m : List (Nat × SpanRecords)) (sp : Nat)
    (h : sp ∈ m.map Prod.fst) :
    ∃ w rest, removeEntry m sp = some ((sp, w), rest) ∧
      rest.map Prod.fst = removeKeyN (m.map Prod.fst) sp := by
  induction m with
  | nil => simp at h
  | cons e r ih =>
    obtain ⟨k2, w2⟩ := e
    by_cases hk : k2 = sp
    · subst hk
      exact ⟨w2, r, by simp [removeEntry], by simp [removeKeyN]⟩
    · have hm : sp ∈ r.map Prod.fst := by
        simp at h
        rcases h with h | h
        · exact absurd h.symm hk
        · simpa using h
      obtain ⟨w, rest, h1, h2⟩ := ih hm
      exact ⟨w, (k2, w2) :: rest, by simp [removeEntry, hk, h1],
        by simp [removeKeyN, hk, h2]⟩

theorem removeEntry_not_mem (m : List (Nat × SpanRecords)) (sp : Nat)
    (h : sp ∉ m.map Prod.fst) : removeEntry m sp = none := by
  induction m with
  | nil => rfl
  | cons e r ih =>
    obtain ⟨k2, w2⟩ := e
    simp at h
    have hne : ¬k2 = sp := fun hh => (h.1 hh.symm).elim
    have hne2 : sp ∉ r.map Prod.fst := by
      intro hx
      rcases List.mem_map.mp hx with ⟨⟨k3, w3⟩, hmem, hk⟩
      simp at hk
      subst hk
      exact h.2 w3 hmem
    simp [removeEntry, hne, ih hne2]

/-- One simulated step: if the checker accepts, the machine does not
panic and the relation is preserved. -/
theorem rmStep_sim (a : Option Nat × List Nat) (st : RMState) (i : Instruction)
    (hrel : rmAbs a st) (a2 : Option Nat × List Nat) (h : absStep a i = some a2) :
    ∃ st2 out, rmHandle st i = some (st2, out) ∧ rmAbs a2 st2 := by
  obtain ⟨cur, live⟩ := a
  replace hrel : cur = st.currentSpan.map Prod.fst ∧ live = st.span.map Prod.fst :=
    hrel
  obtain ⟨h1, h2⟩ := hrel
  cases i with
  | restart =>
    simp only [absStep, Option.some_inj] at h
    refine ⟨st, Instruction.restart :: rmReplay st.span, rfl, ?_⟩
    rw [← h]
    exact ⟨h1, h2⟩
  | startEvent t sp tg pr =>
    simp only [absStep, Option.some_inj] at h
    refine ⟨st, _, rfl, ?_⟩
    rw [← h]
    exact ⟨h1, h2⟩
  | finishedEvent =>
    simp only [absStep, Option.some_inj] at h
    refine ⟨st, _, rfl, ?_⟩
    rw [← h]
    exact ⟨h1, h2⟩
  | addValue n v =>
    simp only [absStep, Option.some_inj] at h
    refine ⟨_, _, rfl, ?_⟩
    rw [← h]
    constructor
    · rw [h1]
      cases st.currentSpan <;> simp
    · exact h2
  | deleteSpan sp =>
    simp only [absStep, Option.some_inj] at h
    refine ⟨_, _, rfl, ?_⟩
    rw [← h]
    refine ⟨h1, ?_⟩
    rw [removeSpan_keys, ← h2]
  | newSpan p sp n =>
    cases hcur : st.currentSpan with
    | some e =>
      rw [hcur] at h1
      simp at h1
      subst h1
      simp only [absStep] at h
      exact absurd h (by simp)
    | none =>
      rw [hcur] at h1
      simp at h1
      subst h1
      simp only [absStep, Option.some_inj] at h
      refine ⟨{ span := st.span, currentSpan := some (sp, ⟨p, n, []⟩) },
        [.newSpan p sp n], by simp only [rmHandle, hcur], ?_⟩
      rw [← h]
      exact ⟨by simp, h2⟩
  | finishedSpan =>
    cases hcur : st.currentSpan with
    | none =>
      rw [hcur] at h1
      simp at h1
      subst h1
      simp only [absStep] at h
      exact absurd h (by simp)
    | some e =>
      obtain ⟨k, v⟩ := e
      rw [hcur] at h1
      simp at h1
      subst h1
      simp only [absStep, Option.some_inj] at h
      refine ⟨{ span := insertSpan st.span k v, currentSpan := none },
        [.finishedSpan], by simp only [rmHandle, hcur], ?_⟩
      rw [← h]
      refine ⟨by simp, ?_⟩
      rw [insertSpan_keys, ← h2]
  | finishedRecord =>
    cases hcur : st.currentSpan with
    | none =>
      rw [hcur] at h1
      simp at h1
      subst h1
      simp only [absStep] at h
      exact absurd h (by simp)
    | some e =>
      obtain ⟨k, v⟩ := e
      rw [hcur] at h1
      simp at h1
      subst h1
      simp only [absStep, Option.some_inj] at h
      refine ⟨{ span := insertSpan st.span k v, currentSpan := none },
        [.finishedRecord], by simp only [rmHandle, hcur], ?_⟩
      rw [← h]
      refine ⟨by simp, ?_⟩
      rw [insertSpan_keys, ← h2]
  | newRecord sp =>
    cases hcur : st.currentSpan with
    | some e =>
      rw [hcur] at h1
      simp at h1
      subst h1
      simp only [absStep] at h
      exact absurd h (by simp)
    | none =>
      rw [hcur] at h1
      simp at h1
      subst h1
      simp only [absStep] at h
      by_cases hm : sp ∈ live
      · rw [if_pos hm] at h
        simp only [Option.some_inj] at h
        obtain ⟨w, rest, hre, hkeys⟩ := removeEntry_mem st.span sp (h2 ▸ hm)
        refine ⟨{ span := rest, currentSpan := some (sp, w) }, [.newRecord sp],
          by simp only [rmHandle, hcur, hre], ?_⟩
        rw [← h]
        refine ⟨by simp, ?_⟩
        rw [hkeys, ← h2]
      · rw [if_neg hm] at h
        exact absurd h (by simp)

/-- Accepted streams never panic the machine. -/
theorem rmRun_safe (S : List Instruction) (a : Option Nat × List Nat)
    (st : RMState) (hrel : rmAbs a st) (a2 : Option Nat × List Nat)
    (h : absRun a S = some a2) : ∃ st2, rmRun st S = some st2 ∧ rmAbs a2 st2 := by
  induction S generalizing a st with
  | nil =>
    simp [absRun] at h
    exact ⟨st, by simp [rmRun], h ▸ hrel⟩
  | cons i S ih =>
    simp only [absRun] at h
    cases ha : absStep a i with
    | none => rw [ha] at h; exact absurd h (by simp)
    | some a3 =>
      rw [ha] at h
      obtain ⟨st2, out, h1, h2⟩ := rmStep_sim a st i hrel a3 ha
      obtain ⟨st3, h3, h4⟩ := ih a3 st2 h2 h
      exact ⟨st3, by simp [rmRun, h1, h3], h4⟩

/-- C10: `RestartableMachine::handle` panics (`none`) exactly when
`NewRecord(id)` arrives for an id absent from the live map or while a
construction is open, when `FinishedSpan`/`FinishedRecord` arrives with
no span under construction, or when `NewSpan` arrives while one is
open; and every stream accepted by the balanced-pairing/live-record
checker, started from the empty machine, runs without reaching any
panic branch. -/
theorem c10_panic_freedom :
    (∀ st sp, rmHandle st (Instruction.newRecord sp) = none ↔
      (st.currentSpan.isSome ∨ sp ∉ st.span.map Prod.fst)) ∧
    (∀ st, rmHandle st Instruction.finishedSpan = none ↔ st.currentSpan = none) ∧
    (∀ st, rmHandle st Instruction.finishedRecord = none ↔ st.currentSpan = none) ∧
    (∀ st p sp n, rmHandle st (Instruction.newSpan p sp n) = none ↔
      st.currentSpan.isSome) ∧
    (∀ S a2, absRun (none, []) S = some a2 →
      (rmRun ⟨[], none⟩ S).isSome) := by
  refine ⟨?_, ?_, ?_, ?_, ?_⟩
  · intro st sp
    cases hcur : st.currentSpan with
    | some e => simp [rmHandle, hcur]
    | none =>
      by_cases hm : sp ∈ st.span.map Prod.fst
      · obtain ⟨w, rest, hre, _⟩ := removeEntry_mem st.span sp hm
        simp [rmHandle, hcur, hre, hm]
      · simp [rmHandle, hcur, removeEntry_not_mem st.span sp hm, hm]
  · intro st
    cases hcur : st.currentSpan with
    | some e => simp [rmHandle, hcur]
    | none => simp [rmHandle, hcur]
  · intro st
    cases hcur : st.currentSpan with
    | some e => simp [rmHandle, hcur]
    | none => simp [rmHandle, hcur]
  · intro st p sp n
    cases hcur : st.currentSpan with
    | some e => simp [rmHandle, hcur]
    | none => simp [rmHandle, hcur]
  · intro S a2 h
    obtain ⟨st2, h1, _⟩ := rmRun_safe S (none, []) ⟨[], none⟩ ⟨rfl, rfl⟩ a2 h
    simp [h1]

/-- C10 witness: a concrete balanced stream with a late record runs
without panicking. -/
theorem c10_witness :
    absRun (none, []) [Instruction.newSpan none 1 [97],
      Instruction.addValue [98] (Value.integer 1), Instruction.finishedSpan,
      Instruction.newRecord 1, Instruction.finishedRecord,
      Instruction.deleteSpan 1, Instruction.restart] = some (none, []) ∧
    (rmRun ⟨[], none⟩ [Instruction.newSpan none 1 [97],
      Instruction.addValue [98] (Value.integer 1), Instruction.finishedSpan,
      Instruction.newRecord 1, Instruction.finishedRecord,
      Instruction.deleteSpan 1, Instruction.restart]).isSome := by
  refine ⟨by decide, c10_panic_freedom.2.2.2.2 _ (none, []) (by decide)⟩

/-! ## Printer (src/src/printer.rs)

The printer renders instructions into output bytes (`List Nat`).
Formatting helpers mirror the Rust formatting machinery the source
calls into. -/

/-- Decimal digits of a natural number, as ASCII bytes. -/
def natDec (n : Nat) : List Nat := (Nat.toDigits 10 n).map Char.toNat

/-- `i64` display: minus sign then digits. -/
def intDec (v : Int) : List Nat :=
  if v < 0 then 45 :: natDec v.natAbs else natDec v.toNat

/-- Zero-padded decimal of width `w`. -/
def padDec (w n : Nat) : List Nat :=
  List.replicate (w - (natDec n).length) 48 ++ natDec n

/-- Lowercase `{:02x}` of a byte. -/
def hex2 (n : Nat) : List Nat :=
  let d := (Nat.toDigits 16 n).map Char.toNat
  List.replicate (2 - d.length) 48 ++ d

/-- Civil date from days since 1970-01-01 (proleptic Gregorian,
Hinnant's algorithm), modelling chrono's calendar. -/
def civilFromDays (z : Int) : Int × Nat × Nat :=
  let z2 := z + 719468
  let era := Int.fdiv z2 146097
  let doe := (z2 - era * 146097).toNat
  let yoe := (doe - doe / 1460 + doe / 36524 - doe / 146096) / 365
  let doy := doe - (365 * yoe + yoe / 4 - yoe / 100)
  let mp := (5 * doy + 2) / 153
  let d := doy - (153 * mp + 2) / 5 + 1
  let m := if mp < 10 then mp + 3 else mp - 9
  ((era * 400 : Int) + yoe + (if m ≤ 2 then 1 else 0), m, d)

/-- Year rendering: zero-padded to 4 digits; chrono prints years above
9999 with a `+` and negative years with `-` (modelled from chrono's
RFC 3339 Debug format; only in-range years are exercised by claims). -/
def fmtYear (y : Int) : List Nat :=
  if y < 0 then 45 :: padDec 4 y.natAbs
  else if y ≤ 9999 then padDec 4 y.toNat
  else 43 :: natDec y.toNat

/-- Subsecond part of chrono's Debug format: empty when zero, else
`.%3/6/9` digits trimming trailing zeros in groups of three. -/
def fmtNanos (n : Nat) : List Nat :=
  if n = 0 then []
  else if n % 1000000 = 0 then 46 :: padDec 3 (n / 1000000)
  else if n % 1000 = 0 then 46 :: padDec 6 (n / 1000)
  else 46 :: padDec 9 n

/-- `{:?}` of a `DateTime<Utc>` (modelled from chrono: ISO-8601 with a
trailing `Z`), from the (sec-as-u64, nsec) pair. -/
def fmtTs (t : Ts) : List Nat :=
  let s : Int := if t.sec < 2 ^ 63 then (t.sec : Int) else (t.sec : Int) - 2 ^ 64
  let days := Int.fdiv s 86400
  let sod := (s - days * 86400).toNat
  match civilFromDays days with
  | (y, mo, d) =>
    fmtYear y ++ [45] ++ padDec 2 mo ++ [45] ++ padDec 2 d ++ [84] ++
      padDec 2 (sod / 3600) ++ [58] ++ padDec 2 (sod % 3600 / 60) ++ [58] ++
      padDec 2 (sod % 60) ++ fmtNanos t.nsec ++ [90]

/-- One byte of `{:?}` string escaping (`escape_debug`), modelled at
the byte level: quotes, backslashes and ASCII control characters are
escaped; other bytes pass through.  (Unicode-aware escaping of
non-ASCII nonprintables is not modelled; no claim depends on it.) -/
def escDebugByte (bv : Nat) : List Nat :=
  if bv = 34 then [92, 34]
  else if bv = 92 then [92, 92]
  else if bv = 10 then [92, 110]
  else if bv = 13 then [92, 114]
  else if bv = 9 then [92, 116]
  else if bv < 32 then [92, 117, 123] ++ (Nat.toDigits 16 bv).map Char.toNat ++ [125]
  else [bv]

/-- `{:?}` of a string: quoted and escaped. -/
def quoteDebug (s : RStr) : List Nat :=
  34 :: (s.map escDebugByte).flatten ++ [34]

/-- f64 `Display` rendering is floating-point behavior outside this
embedding (no claim exercises it); the bytes are modelled as the
decimal of the raw bit pattern. -/
def fmtF64 (bits : Nat) : List Nat := natDec bits

/-- An ANSI style as (prefix, suffix) byte strings (modelled from
nu_ansi_term: `ESC [ code m` / `ESC [ 0 m`). -/
def ansiStyle (code : List Nat) : List Nat × List Nat :=
  ([27, 91] ++ code ++ [109], [27, 91, 48, 109])

/-- `Style::prefix`/`suffix` wrapping (`with_style`): `none` writes the
inner bytes only. -/
def withStyle (st : Option (List Nat × List Nat)) (inner : List Nat) : List Nat :=
  match st with
  | none => inner
  | some (p, s) => p ++ inner ++ s

/-- `NewEvent::level_style` color codes (purple, blue, green, yellow,
red). -/
def levelStyle : Priority → List Nat × List Nat
  | .trace => ansiStyle [51, 53]
  | .debug => ansiStyle [51, 52]
  | .info => ansiStyle [51, 50]
  | .warn => ansiStyle [51, 51]
  | .error => ansiStyle [51, 49]

/-- `NewEvent::level_padded`: five characters, right-aligned. -/
def levelPadded : Priority → List Nat
  | .trace => [84, 82, 65, 67, 69]
  | .debug => [68, 69, 66, 85, 71]
  | .info => [32, 73, 78, 70, 79]
  | .warn => [32, 87, 65, 82, 78]
  | .error => [69, 82, 82, 79, 82]

/-- `NewEvent::write_value`. -/
def writeValue : Value RStr → List Nat
  | .debug s => s
  | .string s => quoteDebug s
  | .float bits => fmtF64 bits
  | .integer v => intDec v
  | .unsigned v => natDec v
  | .bool b => if b then [116, 114, 117, 101] else [102, 97, 108, 115, 101]
  | .byteArray bs => (bs.map hex2).flatten

/-- `NewEvent::write_record`: the field named `message` with a `Debug`
value prints the value only (when rendering event fields). -/
def writeRecord (fieldStyle : Option (List Nat × List Nat)) (withMessage : Bool)
    (name : RStr) (v : Value RStr) : List Nat :=
  match v, withMessage && name == [109, 101, 115, 115, 97, 103, 101] with
  | .debug s, true => s
  | v, _ => withStyle fieldStyle name ++ [61] ++ writeValue v

/-- Space-separated records (`idx > 0` gets a leading space). -/
def writeRecords (fieldStyle : Option (List Nat × List Nat)) (withMessage : Bool)
    (records : List (RStr × Value RStr)) : List Nat :=
  match records with
  | [] => []
  | r :: rs =>
    writeRecord fieldStyle withMessage r.1 r.2 ++
      (rs.map fun r2 => 32 :: writeRecord fieldStyle withMessage r2.1 r2.2).flatten

/-- The span blocks of a line: a single leading space before the first
span, then `name{records}:` per span. -/
def writeSpans (bold dimmed fieldStyle : Option (List Nat × List Nat))
    (spans : List SpanRecords) : List Nat :=
  match spans with
  | [] => []
  | _ =>
    32 :: (spans.map fun sr =>
      withStyle bold (sr.name ++ [123]) ++ writeRecords fieldStyle false sr.records ++
        [125] ++ withStyle dimmed [58]).flatten

/-- `Printer`'s pending event accumulator (`NewEvent`). -/
structure NewEvent where
  time : Ts
  span : Option Nat
  target : RStr
  priority : Priority
  records : List (RStr × Value RStr)
deriving DecidableEq, Repr

/-- `NewEvent::write_line`. -/
def writeLine (color : Bool) (spans : List SpanRecords) (e : NewEvent) : List Nat :=
  let dimmed := if color then some (ansiStyle [50]) else none
  let bold := if color then some (ansiStyle [49]) else none
  let lvl := if color then some (levelStyle e.priority) else none
  let fieldStyle := if color then some (ansiStyle [51]) else none
  withStyle dimmed (fmtTs e.time) ++
    withStyle lvl (32 :: levelPadded e.priority) ++
    writeSpans bold dimmed fieldStyle spans ++
    withStyle dimmed (32 :: e.target ++ [58]) ++
    (e.records.map fun r => 32 :: writeRecord fieldStyle true r.1 r.2).flatten

/-- Modelled from the spec: `SpanRecords::lost` lives in the tape.rs
copy missing from src/; section 4.7 specifies a synthetic
`lost-span-{id}` placeholder with no parent and no records. -/
def lostSpan (sp : Nat) : SpanRecords :=
  ⟨none, [108, 111, 115, 116, 45, 115, 112, 97, 110, 45] ++ natDec sp, []⟩

/-- `Printer::get_span`. -/
def getSpan (spans : List (Nat × SpanRecords)) (sp : Nat) : SpanRecords :=
  (lookupSpan spans sp).getD (lostSpan sp)

/-- `Printer::span_from_root`: follow parent pointers, root first.  An
acyclic chain visits pairwise distinct stored spans and at most one
lost placeholder, so it has length at most `spans.length + 1`; a longer
chain revisits a span, on which the source recursion never terminates
(a crash) — modelled by running out of fuel (`none`). -/
def spanChain (spans : List (Nat × SpanRecords)) : Nat → Nat → Option (List SpanRecords)
  | 0, _ => none
  | fuel + 1, sp =>
    let r := getSpan spans sp
    match r.parent with
    | none => some [r]
    | some p => (spanChain spans fuel p).map fun c => c ++ [r]

/-- `Printer::span_from_root` at its canonical fuel. -/
def spanFromRoot (spans : List (Nat × SpanRecords)) (sp : Nat) :
    Option (List SpanRecords) :=
  spanChain spans (spans.length + 1) sp

/-- `Printer` state. -/
structure PrinterState where
  span : List (Nat × SpanRecords)
  newRecords : Option (Nat × SpanRecords)
  newEvent : Option NewEvent
deriving DecidableEq, Repr

/-- `Printer::handle`: `none` is a Rust panic (`assert!`/`unwrap` or
the `AddValue` match arm `_ => panic!()`); output bytes are the line
plus a newline on `FinishedEvent`. -/
def printerHandle (color : Bool) (st : PrinterState) (i : Instruction) :
    Option (PrinterState × List Nat) :=
  match i with
  | .restart => some (st, [])
  | .newSpan p sp n =>
    match st.newRecords with
    | some _ => none
    | none => some ({ st with newRecords := some (sp, ⟨p, n, []⟩) }, [])
  | .finishedSpan =>
    match st.newRecords with
    | none => none
    | some (k, v) =>
      some ({ st with span := insertSpan st.span k v, newRecords := none }, [])
  | .finishedRecord =>
    match st.newRecords with
    | none => none
    | some (k, v) =>
      some ({ st with span := insertSpan st.span k v, newRecords := none }, [])
  | .newRecord sp =>
    match st.newRecords with
    | some _ => none
    | none =>
      some ({ st with span := removeSpan st.span sp
                      newRecords := some (sp, getSpan st.span sp) }, [])
  | .startEvent t sp tg pr =>
    match st.newEvent with
    | some _ => none
    | none => some ({ st with newEvent := some ⟨t, sp, tg, pr, []⟩ }, [])
  | .finishedEvent =>
    match st.newEvent with
    | none => none
    | some ev =>
      match ev.span with
      | none => some ({ st with newEvent := none }, writeLine color [] ev ++ [10])
      | some sp =>
        (spanFromRoot st.span sp).map fun chain =>
          ({ st with newEvent := none }, writeLine color chain ev ++ [10])
  | .addValue n v =>
    match st.newRecords, st.newEvent with
    | some nr, none =>
      let sr : SpanRecords := ⟨nr.2.parent, nr.2.name, nr.2.records ++ [(n, v)]⟩
      some ({ st with newRecords := some (nr.1, sr) }, [])
    | none, some ev =>
      let e2 : NewEvent := ⟨ev.time, ev.span, ev.target, ev.priority, ev.records ++ [(n, v)]⟩
      some ({ st with newEvent := some e2 }, [])
    | _, _ => none
  | .deleteSpan sp => some ({ st with span := removeSpan st.span sp }, [])

/-- Run the printer over an instruction list, concatenating output. -/
def printerRun (color : Bool) (st : PrinterState) :
    List Instruction → Option (PrinterState × List Nat)
  | [] => some (st, [])
  | i :: S =>
    match printerHandle color st i with
    | none => none
    | some (st2, o1) =>
      match printerRun color st2 S with
      | none => none
      | some (st3, o2) => some (st3, o1 ++ o2)

/-! ### C8: the S2 scenario -/

/-- The scenario-S2 instruction sequence: a single INFO event with
target `"m"` and one `message = Debug("hi")` field. -/
def s2Instrs : List Instruction :=
  [.startEvent ⟨0, 0⟩ none [109] .info,
   .addValue [109, 101, 115, 115, 97, 103, 101] (Value.debug [104, 105]),
   .finishedEvent]

/-- The bytes of `"1970-01-01T00:00:00Z  INFO m: hi\n"`. -/
def s2Line : List Nat :=
  [49, 57, 55, 48, 45, 48, 49, 45, 48, 49, 84, 48, 48, 58, 48, 48, 58,
   48, 48, 90, 32, 32, 73, 78, 70, 79, 32, 109, 58, 32, 104, 105, 10]

/-- C8: feeding the Printer, with color disabled, the scenario-S2
sequence (StartEvent at time (0,0) with no span, target "m", priority
INFO; AddValue "message" = Debug("hi"); FinishedEvent) produces exactly
the line `1970-01-01T00:00:00Z  INFO m: hi` followed by a newline, and
the output contains no ESC byte (no ANSI escape sequences). -/
theorem c8_s2_scenario :
    printerRun false ⟨[], none, none⟩ s2Instrs = some (⟨[], none, none⟩, s2Line) ∧
      27 ∉ s2Line := by
  decide

/-! ## The viewer chain (msgpack-tracing-printer/src/main.rs)

`print_log` drives `Load::fetch_one_cached` into
`StringUncache<Printer>`: decode errors are reported and followed by
`load.restart()` and `continue`; decoded instructions are handled by
the chain. -/

/-- `StringUncache::uncache_value` over the full value type of the
viewer's instruction set.  Modelled from the spec: the string_cache.rs
copy shipped in src/ predates the `Debug` value variant; section 4.4
specifies that the uncache replaces *every* `Cached(i)` with
`strings[i]`, so the `Debug` arm resolves exactly like `String`. -/
def uncacheCValue (tbl : List RStr) : Value CacheString → Option (Value RStr)
  | .debug cs => (uncacheStr tbl cs).map .debug
  | .string cs => (uncacheStr tbl cs).map .string
  | .float bits => some (.float bits)
  | .integer v => some (.integer v)
  | .unsigned v => some (.unsigned v)
  | .bool b => some (.bool b)
  | .byteArray bs => some (.byteArray bs)

/-- `StringUncache::handle` over the viewer's cached instruction set:
the new table, and the resolved instruction forwarded to the inner
machine (`none` output for the absorbed `NewString`; `none` overall is
a Rust out-of-range index panic). -/
def uncacheC (tbl : List RStr) :
    CacheInstruction → Option (List RStr × Option Instruction)
  | .restart => some (tbl, some .restart)
  | .newString s => some (tbl ++ [s], none)
  | .newSpan p sp n => (uncacheStr tbl n).map fun s => (tbl, some (.newSpan p sp s))
  | .finishedSpan => some (tbl, some .finishedSpan)
  | .newRecord sp => some (tbl, some (.newRecord sp))
  | .finishedRecord => some (tbl, some .finishedRecord)
  | .startEvent t sp tg pr =>
    (uncacheStr tbl tg).map fun s => (tbl, some (.startEvent t sp s pr))
  | .finishedEvent => some (tbl, some .finishedEvent)
  | .addValue n v =>
    match uncacheStr tbl n, uncacheCValue tbl v with
    | some n2, some v2 => some (tbl, some (.addValue n2 v2))
    | _, _ => none
  | .deleteSpan sp => some (tbl, some (.deleteSpan sp))

/-- One step of the `StringUncache<Printer>` chain: `none` is a panic
in either layer. -/
def chainStep (color : Bool) (cs : List RStr × PrinterState)
    (i : CacheInstruction) : Option (List RStr × PrinterState) :=
  match uncacheC cs.1 i with
  | none => none
  | some (tbl2, none) => some (tbl2, cs.2)
  | some (tbl2, some u) =>
    match printerHandle color cs.2 u with
    | none => none
    | some (p2, _) => some (tbl2, p2)

/-- Run the chain over a list of decoded instructions. -/
def chainRunAll (color : Bool) (cs : List RStr × PrinterState) :
    List CacheInstruction → Option (List RStr × PrinterState)
  | [] => some cs
  | i :: S =>
    match chainStep color cs i with
    | none => none
    | some cs2 => chainRunAll color cs2 S

/-- How a `print_log` run ends: clean EOF, or a panic in the handler
chain.  `outOfFuel` is an artifact of the fuel bound and is proved
unreachable at the canonical fuel. -/
inductive VOutcome where
  | eof
  | aborted
  | outOfFuel
deriving DecidableEq, Repr

/-- The `print_log` loop.  On a decode error the viewer reports it and
calls `load.restart()` before continuing; modelled from the spec
(section 5 resynchronization): `restart()` sets `started = false`, so
the next fetch scans for the next `Restart` opcode.  (`Load::restart`
itself lives in the storage.rs copy missing from src/.) -/
def viewerLoop (color : Bool) :
    Nat → Bool → List RStr × PrinterState → List Nat → VOutcome
  | 0, _, _, _ => .outOfFuel
  | fuel + 1, started, cs, l =>
    match fetchOneCached started l with
    | (.eofR, _, _) => .eof
    | (.failR _, _, l2) => viewerLoop color fuel false cs l2
    | (.instrR i, st2, l2) =>
      match chainStep color cs i with
      | none => .aborted
      | some cs2 => viewerLoop color fuel st2 cs2 l2

/-- `print_log` on a whole input, from fresh state, with enough fuel
(each iteration consumes at least one byte). -/
def viewerRun (color : Bool) (l : List Nat) : VOutcome :=
  viewerLoop color (l.length + 1) false ([], ⟨[], none, none⟩) l

/-- The instructions the viewer's loop successfully decodes from a byte
stream, skipping (and resynchronizing after) decode errors. -/
def decodeStream : Nat → Bool → List Nat → List CacheInstruction
  | 0, _, _ => []
  | fuel + 1, started, l =>
    match fetchOneCached started l with
    | (.eofR, _, _) => []
    | (.failR _, _, l2) => decodeStream fuel false l2
    | (.instrR i, st2, l2) => i :: decodeStream fuel st2 l2

/-- `decodeStream` at the canonical fuel. -/
def decodedInstrs (l : List Nat) : List CacheInstruction :=
  decodeStream (l.length + 1) false l

/-! ### Consumption: every non-EOF fetch consumes at least one byte -/

/-- A reader never grows its input. -/
def RdLe (x : Rd α) : Prop := ∀ l, ((x l).2).length ≤ l.length

theorem rdLe_pure (a : α) : RdLe (pure a : Rd α) := fun _ => le_refl _

theorem rdLe_err (e : DErr) : RdLe (rdErr e : Rd α) := fun _ => le_refl _

theorem rdLe_readByte : RdLe readByte := by
  intro l
  cases l <;> simp [readByte]

theorem rdLe_peekByte : RdLe peekByte := by
  intro l
  cases l <;> simp [peekByte]

theorem rdLe_readN (n : Nat) : RdLe (readN n) := by
  intro l
  unfold readN
  split_ifs <;> simp

theorem rdLe_bind {α β : Type} {x : Rd α} {f : α → Rd β} (hx : RdLe x)
    (hf : ∀ a, RdLe (f a)) : RdLe (x >>= f) := by
  intro l
  cases hxl : x l with
  | mk r l2 =>
    have h1 := hx l
    rw [hxl] at h1
    rw [rd_bind, hxl]
    cases r with
    | ok a =>
      show ((f a l2).2).length ≤ l.length
      exact le_trans (hf a l2) h1
    | error e => exact h1

theorem rdLe_ite {α : Type} {c : Prop} [Decidable c] {x y : Rd α} (hx : RdLe x)
    (hy : RdLe y) : RdLe (if c then x else y) := by
  by_cases h : c
  · rwa [if_pos h]
  · rwa [if_neg h]

theorem rdLe_readUintRd : RdLe readUintRd := by
  unfold readUintRd
  refine rdLe_bind rdLe_readByte fun m => ?_
  refine rdLe_ite (rdLe_pure _) ?_
  refine rdLe_ite rdLe_readByte ?_
  refine rdLe_ite (rdLe_bind (rdLe_readN _) fun _ => rdLe_pure _) ?_
  refine rdLe_ite (rdLe_bind (rdLe_readN _) fun _ => rdLe_pure _) ?_
  refine rdLe_ite (rdLe_bind (rdLe_readN _) fun _ => rdLe_pure _) ?_
  refine rdLe_ite (rdLe_bind rdLe_readByte fun _ => rdLe_ite (rdLe_pure _) (rdLe_err _)) ?_
  refine rdLe_ite (rdLe_bind (rdLe_readN _) fun _ => rdLe_ite (rdLe_pure _) (rdLe_err _)) ?_
  refine rdLe_ite (rdLe_bind (rdLe_readN _) fun _ => rdLe_ite (rdLe_pure _) (rdLe_err _)) ?_
  refine rdLe_ite (rdLe_bind (rdLe_readN _) fun _ => rdLe_ite (rdLe_pure _) (rdLe_err _)) ?_
  exact rdLe_ite (rdLe_err _) (rdLe_err _)

theorem rdLe_readIntRd : RdLe readIntRd := by
  unfold readIntRd
  refine rdLe_bind rdLe_readByte fun m => ?_
  refine rdLe_ite (rdLe_pure _) ?_
  refine rdLe_ite (rdLe_pure _) ?_
  refine rdLe_ite (rdLe_bind rdLe_readByte fun _ => rdLe_pure _) ?_
  refine rdLe_ite (rdLe_bind (rdLe_readN _) fun _ => rdLe_pure _) ?_
  refine rdLe_ite (rdLe_bind (rdLe_readN _) fun _ => rdLe_pure _) ?_
  refine rdLe_ite (rdLe_bind (rdLe_readN _) fun _ => rdLe_ite (rdLe_pure _) (rdLe_err _)) ?_
  refine rdLe_ite (rdLe_bind rdLe_readByte fun _ => rdLe_pure _) ?_
  refine rdLe_ite (rdLe_bind (rdLe_readN _) fun _ => rdLe_pure _) ?_
  refine rdLe_ite (rdLe_bind (rdLe_readN _) fun _ => rdLe_pure _) ?_
  refine rdLe_ite (rdLe_bind (rdLe_readN _) fun _ => rdLe_pure _) ?_
  exact rdLe_err _

theorem rdLe_readStrLen : RdLe readStrLen := by
  unfold readStrLen
  refine rdLe_bind rdLe_readByte fun m => ?_
  refine rdLe_ite (rdLe_pure _) ?_
  refine rdLe_ite rdLe_readByte ?_
  refine rdLe_ite (rdLe_bind (rdLe_readN _) fun _ => rdLe_pure _) ?_
  refine rdLe_ite (rdLe_bind (rdLe_readN _) fun _ => rdLe_pure _) ?_
  exact rdLe_err _

theorem rdLe_readStrRd : RdLe readStrRd := by
  unfold readStrRd
  refine rdLe_bind rdLe_readStrLen fun n => ?_
  refine rdLe_bind (rdLe_readN n) fun bs => ?_
  exact rdLe_ite (rdLe_pure _) (rdLe_err _)

theorem rdLe_readBinLen : RdLe readBinLen := by
  unfold readBinLen
  refine rdLe_bind rdLe_readByte fun m => ?_
  refine rdLe_ite rdLe_readByte ?_
  refine rdLe_ite (rdLe_bind (rdLe_readN _) fun _ => rdLe_pure _) ?_
  refine rdLe_ite (rdLe_bind (rdLe_readN _) fun _ => rdLe_pure _) ?_
  exact rdLe_err _

theorem rdLe_cacheIndexRead : RdLe cacheIndexRead := by
  unfold cacheIndexRead
  refine rdLe_bind rdLe_readByte fun m => ?_
  refine rdLe_ite (rdLe_bind (rdLe_readN _) fun _ => rdLe_pure _) ?_
  refine rdLe_ite (rdLe_bind (rdLe_readN _) fun _ => rdLe_pure _) ?_
  refine rdLe_ite (rdLe_bind (rdLe_readN _) fun _ => rdLe_pure _) ?_
  refine rdLe_ite (rdLe_bind (rdLe_readN _) fun _ => rdLe_pure _) ?_
  exact rdLe_err _

theorem rdLe_readCacheStr : RdLe readCacheStr := by
  unfold readCacheStr
  refine rdLe_bind rdLe_peekByte fun m => ?_
  refine rdLe_ite (rdLe_bind rdLe_readStrRd fun _ => rdLe_pure _) ?_
  refine rdLe_ite (rdLe_bind rdLe_cacheIndexRead fun _ => rdLe_pure _) ?_
  exact rdLe_err _

theorem rdLe_readValue : RdLe readValue := by
  unfold readValue
  refine rdLe_bind rdLe_peekByte fun m => ?_
  refine rdLe_ite (rdLe_bind rdLe_readByte fun _ =>
    rdLe_bind rdLe_readCacheStr fun _ => rdLe_pure _) ?_
  refine rdLe_ite (rdLe_bind rdLe_readIntRd fun _ => rdLe_pure _) ?_
  refine rdLe_ite (rdLe_bind rdLe_readCacheStr fun _ => rdLe_pure _) ?_
  refine rdLe_ite (rdLe_pure _) ?_
  refine rdLe_ite (rdLe_pure _) ?_
  refine rdLe_ite (rdLe_bind rdLe_readBinLen fun n =>
    rdLe_bind (rdLe_readN n) fun _ => rdLe_pure _) ?_
  refine rdLe_ite (rdLe_bind rdLe_readByte fun _ =>
    rdLe_bind (rdLe_readN _) fun _ => rdLe_pure _) ?_
  refine rdLe_ite (rdLe_bind rdLe_readByte fun _ =>
    rdLe_bind (rdLe_readN _) fun _ => rdLe_pure _) ?_
  refine rdLe_ite (rdLe_bind rdLe_readUintRd fun _ => rdLe_pure _) ?_
  exact rdLe_err _

/-- A successful synchronization strictly shortens the input. -/
theorem syncByte_some_lt (b : Nat) (r : List Nat) (st2 : Bool) :
    ∀ (st : Bool) (l : List Nat),
      syncByte st l = (some (b, r), st2) → r.length < l.length := by
  intro st l
  induction l generalizing st with
  | nil => intro h; cases st <;> simp [syncByte] at h
  | cons c cr ih =>
    intro h
    cases st with
    | true =>
      rw [show syncByte true (c :: cr) = (some (c, cr), true) from rfl] at h
      injection h with h1 h2
      injection h1 with h3
      injection h3 with h4 h5
      rw [← h5]
      exact Nat.lt_succ_self _
    | false =>
      have h2 : syncByte (c == 255) cr = (some (b, r), st2) := h
      exact Nat.lt_succ_of_lt (ih _ h2)

/-- `runPayload` consumes no more than the payload bytes available. -/
theorem runPayload_len {x : Rd CacheInstruction} (hx : RdLe x) (r : List Nat)
    (res : FetchRes CacheInstruction) (st2 : Bool) (l2 : List Nat)
    (h : runPayload x r = (res, st2, l2)) : l2.length ≤ r.length := by
  unfold runPayload at h
  cases hxr : x r with
  | mk e r2 =>
    rw [hxr] at h
    have h1 := hx r
    rw [hxr] at h1
    cases e with
    | ok a =>
      have h3 : ((FetchRes.instrR a : FetchRes CacheInstruction), true, r2) =
          (res, st2, l2) := h
      cases h3
      exact h1
    | error e2 =>
      have h3 : ((FetchRes.failR e2 : FetchRes CacheInstruction), true, r2) =
          (res, st2, l2) := h
      cases h3
      exact h1

/-- A non-EOF fetch strictly shortens the input. -/
theorem fetchOneCached_consume (started : Bool) (l : List Nat)
    (res : FetchRes CacheInstruction) (st2 : Bool) (l2 : List Nat)
    (h : fetchOneCached started l = (res, st2, l2)) (hne : res ≠ .eofR) :
    l2.length < l.length := by
  unfold fetchOneCached at h
  split at h
  · exfalso
    apply hne
    cases h
    rfl
  · rename_i b r stx heq
    have hr : r.length < l.length := syncByte_some_lt b r stx started l heq
    refine lt_of_le_of_lt ?_ hr
    by_cases c0 : b = 255
    · rw [if_pos c0] at h; cases h; exact le_refl _
    rw [if_neg c0] at h
    by_cases c1 : b = 1
    · rw [if_pos c1] at h
      exact runPayload_len (rdLe_bind rdLe_readStrRd fun _ => rdLe_pure _)
        r res st2 l2 h
    rw [if_neg c1] at h
    by_cases c2 : b = 2
    · rw [if_pos c2] at h
      exact runPayload_len (rdLe_bind rdLe_readUintRd fun _ =>
        rdLe_bind rdLe_readUintRd fun _ => rdLe_bind rdLe_readCacheStr fun _ =>
        rdLe_ite (rdLe_err _) (rdLe_pure _)) r res st2 l2 h
    rw [if_neg c2] at h
    by_cases c3 : b = 4
    · rw [if_pos c3] at h; cases h; exact le_refl _
    rw [if_neg c3] at h
    by_cases c4 : b = 8
    · rw [if_pos c4] at h
      exact runPayload_len (rdLe_bind rdLe_readUintRd fun _ =>
        rdLe_ite (rdLe_err _) (rdLe_pure _)) r res st2 l2 h
    rw [if_neg c4] at h
    by_cases c5 : b = 16
    · rw [if_pos c5] at h; cases h; exact le_refl _
    rw [if_neg c5] at h
    by_cases c6 : b = 32
    · rw [if_pos c6] at h
      exact runPayload_len (rdLe_bind rdLe_readUintRd fun _ =>
        rdLe_bind rdLe_readUintRd fun _ => rdLe_bind rdLe_readUintRd fun _ =>
        rdLe_bind rdLe_readCacheStr fun _ => rdLe_bind rdLe_readUintRd fun _ =>
        rdLe_pure _) r res st2 l2 h
    rw [if_neg c6] at h
    by_cases c7 : b = 64
    · rw [if_pos c7] at h; cases h; exact le_refl _
    rw [if_neg c7] at h
    by_cases c8 : b = 128
    · rw [if_pos c8] at h
      exact runPayload_len (rdLe_bind rdLe_readCacheStr fun _ =>
        rdLe_bind rdLe_readValue fun _ => rdLe_pure _) r res st2 l2 h
    rw [if_neg c8] at h
    by_cases c9 : b = 0
    · rw [if_pos c9] at h
      exact runPayload_len (rdLe_bind rdLe_readUintRd fun _ =>
        rdLe_ite (rdLe_err _) (rdLe_pure _)) r res st2 l2 h
    rw [if_neg c9] at h
    cases h
    exact le_refl _

/-- The viewer loop reaches EOF exactly when the chain survives every
successfully decoded instruction, and (with fuel exceeding the input
length) never runs out of fuel. -/
theorem viewerLoop_sim (color : Bool) :
    ∀ (fuel : Nat) (started : Bool) (cs : List RStr × PrinterState) (l : List Nat),
      l.length < fuel →
      ((viewerLoop color fuel started cs l = VOutcome.eof ↔
          (chainRunAll color cs (decodeStream fuel started l)).isSome = true) ∧
        viewerLoop color fuel started cs l ≠ VOutcome.outOfFuel) := by
  intro fuel
  induction fuel with
  | zero => intro started cs l hf; exact absurd hf (by omega)
  | succ fuel ih =>
    intro started cs l hf
    cases hfetch : fetchOneCached started l with
    | mk res rest =>
      obtain ⟨st2, l2⟩ := rest
      cases res with
      | eofR =>
        have hv : viewerLoop color (fuel + 1) started cs l = VOutcome.eof := by
          simp [viewerLoop, hfetch]
        have hd : decodeStream (fuel + 1) started l = [] := by
          simp [decodeStream, hfetch]
        rw [hv, hd]
        exact ⟨by simp [chainRunAll], by simp⟩
      | failR e =>
        have hlt : l2.length < l.length :=
          fetchOneCached_consume started l (.failR e) st2 l2 hfetch (by simp)
        have hv : viewerLoop color (fuel + 1) started cs l =
            viewerLoop color fuel false cs l2 := by
          simp [viewerLoop, hfetch]
        have hd : decodeStream (fuel + 1) started l = decodeStream fuel false l2 := by
          simp [decodeStream, hfetch]
        rw [hv, hd]
        exact ih false cs l2 (by omega)
      | instrR i =>
        have hlt : l2.length < l.length :=
          fetchOneCached_consume started l (.instrR i) st2 l2 hfetch (by simp)
        have hd : decodeStream (fuel + 1) started l = i :: decodeStream fuel st2 l2 := by
          simp [decodeStream, hfetch]
        cases hstep : chainStep color cs i with
        | none =>
          have hv : viewerLoop color (fuel + 1) started cs l = VOutcome.aborted := by
            simp [viewerLoop, hfetch, hstep]
          have hc : chainRunAll color cs (i :: decodeStream fuel st2 l2) = none := by
            simp [chainRunAll, hstep]
          rw [hv, hd, hc]
          exact ⟨by simp, by simp⟩
        | some cs2 =>
          have hv : viewerLoop color (fuel + 1) started cs l =
              viewerLoop color fuel st2 cs2 l2 := by
            simp [viewerLoop, hfetch, hstep]
          have hc : chainRunAll color cs (i :: decodeStream fuel st2 l2) =
              chainRunAll color cs2 (decodeStream fuel st2 l2) := by
            simp [chainRunAll, hstep]
          rw [hv, hd, hc]
          exact ih st2 cs2 l2 (by omega)

/-! ### Claim C6 -/

/-- C6 counterexample: the claim says no input file can terminate the
viewer except by true EOF.  But the two-byte input `[0xFF, 0x40]`
(Restart, FinishedEvent) decodes cleanly, and `Printer::handle`'s
`FinishedEvent` arm unwraps the absent pending event and panics: the
run aborts before EOF. -/
theorem c6_counterexample :
    viewerRun false [255, 64] = VOutcome.aborted ∧
      VOutcome.aborted ≠ VOutcome.eof := by
  decide

/-- C6 amended: decode errors alone never terminate the viewer — it
reaches EOF exactly when the chain of `StringUncache` into `Printer`
survives (does not panic on) every successfully decoded instruction of
the input; and the fuelled loop never runs out at the canonical fuel. -/
theorem c6_viewer_termination (color : Bool) (l : List Nat) :
    (viewerRun color l = VOutcome.eof ↔
      (chainRunAll color ([], ⟨[], none, none⟩) (decodedInstrs l)).isSome = true) ∧
    viewerRun color l ≠ VOutcome.outOfFuel :=
  viewerLoop_sim color (l.length + 1) false ([], ⟨[], none, none⟩) l
    (Nat.lt_succ_self _)

/-- C6 witness: the termination characterization applied to the
concrete input `[0xFF]` (a lone Restart opcode, consumed by
synchronization): the viewer reaches EOF and the chain survives the
empty decoded stream. -/
theorem c6_witness :
    (viewerRun false [255] = VOutcome.eof ↔
      (chainRunAll false ([], ⟨[], none, none⟩) (decodedInstrs [255])).isSome = true) ∧
    viewerRun false [255] ≠ VOutcome.outOfFuel :=
  c6_viewer_termination false [255]

end MT
